import Mathlib

/-!
Shallow embedding of the sparse directed graph core (namespace `neuronet`,
files `GrafoBase.hpp` and `GrafoDisperso.cpp`) together with theorems
checking the specification claims about it.

Modelling conventions:
- `std::vector` fields become `List`; `size_t` and the non-negative `int`
  counters become `Nat` (no arithmetic in the program can overflow a 64 bit
  machine word for inputs whose edge list fits in memory, so modular
  reduction is omitted); `int` values that can be negative (parsed numbers,
  the DFS parent sentinel `-1`, the `int` parameters of the query
  operations) become `Int`.
- The local `std::vector<char> visitado` marker array of the traversals
  becomes a `Finset Nat` (the set of indices holding 1); the while loops
  become explicit-state recursive functions returning their final state.
- File input becomes `Option (List (List Char))`: `none` models a path
  that cannot be opened, `some lineas` models the list of lines delivered
  by `fgets` (each line including its trailing newline character, as
  `fgets` produces it).  Wall-clock time cannot be computed inside the
  model, so the measured duration of a load is passed as an explicit
  argument.
- Console output (`std::cout` progress reporting) has no effect on any
  returned data and is dropped.
-/

namespace neuronet

/-! ## Edge ingestor: the `sscanf("%d %d")` based line parser -/

/-- Whitespace characters skipped by `sscanf` before a `%d` conversion. -/
def esEspacio (c : Char) : Bool :=
  c == ' ' || c == '\t' || c == '\n' || c == '\r' || c == '\x0b' || c == '\x0c'

/-- Digit-accumulation part of a `%d` conversion: consume leading digits,
accumulating their value in base 10, and return the value with the rest of
the input. -/
def leerDigitosAux (acc : Nat) : List Char → Nat × List Char
  | [] => (acc, [])
  | c :: r => if c.isDigit then leerDigitosAux (10 * acc + (c.toNat - 48)) r else (acc, c :: r)

/-- Reads one or more decimal digits; fails when the input does not start
with a digit, as `sscanf` does for a `%d` conversion with no digits. -/
def leerDigitos (l : List Char) : Option (Nat × List Char) :=
  match l with
  | [] => none
  | c :: r => if c.isDigit then some (leerDigitosAux (c.toNat - 48) r) else none

/-- One `%d` conversion of `sscanf`: skip whitespace, read an optional sign
followed by at least one digit, and return the signed value with the
unconsumed rest of the line. -/
def leerEntero (l : List Char) : Option (Int × List Char) :=
  match l.dropWhile esEspacio with
  | [] => none
  | c :: r =>
    if c = '-' then (leerDigitos r).map (fun p => (-(p.1 : Int), p.2))
    else if c = '+' then (leerDigitos r).map (fun p => ((p.1 : Int), p.2))
    else (leerDigitos (c :: r)).map (fun p => ((p.1 : Int), p.2))

/-- The call `sscanf(buffer, "%d %d", &origen, &destino)` succeeds (returns
2) exactly when two `%d` conversions succeed in sequence; anything left on
the line after the second number is ignored. -/
def leerDosEnteros (l : List Char) : Option (Int × Int) :=
  match leerEntero l with
  | none => none
  | some (a, r) =>
    match leerEntero r with
    | none => none
    | some (b, _) => some (a, b)

/-- One iteration of the read loop of `GrafoDisperso::cargarDatos` on the
line in `buffer`: lines whose first character is a comment marker or a
newline are skipped, then the line is parsed with `sscanf("%d %d")`; a
failed parse or a negative component skips the line, otherwise the pair is
accepted as an edge.  An empty C string has first character the null
character, which is neither a comment marker nor a newline, and its parse
fails, so the empty line is also skipped. -/
def procesarLinea (linea : List Char) : Option (Nat × Nat) :=
  match linea with
  | [] => none
  | c :: _ =>
    if c = '#' ∨ c = '\n' then none
    else
      match leerDosEnteros linea with
      | none => none
      | some (o, d) => if o < 0 ∨ d < 0 then none else some (o.toNat, d.toNat)

/-- The value of `maxId` after the read loop: it starts at -1 and is raised
to every component of every accepted edge. -/
def maxIdDe (aristas : List (Nat × Nat)) : Int :=
  aristas.foldl (fun m e => max (max m (e.1 : Int)) (e.2 : Int)) (-1)

/-! ## The CSR graph structure -/

/-- Persistent state of a `GrafoDisperso` object: the fields of the C++
class, with the load-time metric kept as a plain number. -/
structure GrafoDisperso where
  totalNodos : Nat
  totalAristas : Nat
  ultimoTiempoCargaMs : Nat
  rowPtr : List Nat
  colIndices : List Nat
  grados : List Nat
deriving DecidableEq

/-- State of a freshly constructed `GrafoDisperso` (the default
constructor zero-initialises the counters and leaves the vectors empty). -/
def GrafoDisperso.nuevo : GrafoDisperso :=
  { totalNodos := 0, totalAristas := 0, ultimoTiempoCargaMs := 0
    rowPtr := [], colIndices := [], grados := [] }

/-- Counting pass of the CSR build: `grados[edge.first]++` over the
accepted edges, starting from `totalNodos` zeroed counters. -/
def contarGrados (n : Nat) (aristas : List (Nat × Nat)) : List Nat :=
  aristas.foldl (fun g e => g.set e.1 (g.getD e.1 0 + 1)) (List.replicate n 0)

/-- Prefix-sum pass of the CSR build: `rowPtr[i+1] = rowPtr[i] + grados[i]`
for `i` from 0 to `totalNodos - 1`, starting from `totalNodos + 1`
zeroes. -/
def calcularRowPtr (n : Nat) (grados : List Nat) : List Nat :=
  (List.range n).foldl (fun rp i => rp.set (i + 1) (rp.getD i 0 + grados.getD i 0))
    (List.replicate (n + 1) 0)

/-- Scatter-fill pass of the CSR build: for each accepted edge in input
order, write its destination at `rowPtr[u] + offset[u]` in `colIndices` and
bump the running offset of its origin.  The state carries the column array
and the scratch offset array. -/
def llenarColumnas (rowPtr : List Nat) (m n : Nat) (aristas : List (Nat × Nat)) :
    List Nat × List Nat :=
  aristas.foldl
    (fun s e =>
      (s.1.set (rowPtr.getD e.1 0 + s.2.getD e.1 0) e.2,
       s.2.set e.1 (s.2.getD e.1 0 + 1)))
    (List.replicate m 0, List.replicate n 0)

/-- The whole of `GrafoDisperso::cargarDatos`.  `contenido` is `none` when
`fopen` fails and `some lineas` otherwise; `tiempoMs` is the wall-clock
duration measured by the `chrono` calls, which only the success path stores.
Returns the C++ `bool` result together with the object state after the
call. -/
def cargarDatos (g : GrafoDisperso) (contenido : Option (List (List Char)))
    (tiempoMs : Nat) : Bool × GrafoDisperso :=
  match contenido with
  | none => (false, g)
  | some lineas =>
    let aristas := lineas.filterMap procesarLinea
    let maxId := maxIdDe aristas
    if maxId < 0 then (false, g)
    else
      let totalNodos := maxId.toNat + 1
      let totalAristas := aristas.length
      let grados := contarGrados totalNodos aristas
      let rowPtr := calcularRowPtr totalNodos grados
      let colIndices := (llenarColumnas rowPtr totalAristas totalNodos aristas).1
      (true,
       { totalNodos := totalNodos, totalAristas := totalAristas,
         ultimoTiempoCargaMs := tiempoMs, rowPtr := rowPtr,
         colIndices := colIndices, grados := grados })

/-! ## Neighbor accessor -/

/-- The CSR neighbor slice `colIndices[rowPtr[nodo] .. rowPtr[nodo+1])`.
Both traversals and `obtenerVecinos` compute exactly this slice (the C++
code inlines the two bounds in each of the three places). -/
def vecinosCSR (g : GrafoDisperso) (nodo : Nat) : List Nat :=
  (g.colIndices.drop (g.rowPtr.getD nodo 0)).take
    (g.rowPtr.getD (nodo + 1) 0 - g.rowPtr.getD nodo 0)

/-- `GrafoDisperso::obtenerVecinos`: an out-of-range node yields the empty
vector, otherwise the CSR slice of the node. -/
def obtenerVecinos (g : GrafoDisperso) (nodo : Int) : List Nat :=
  if nodo < 0 ∨ g.totalNodos ≤ nodo.toNat then []
  else vecinosCSR g nodo.toNat

/-! ## Traversal engine -/

/-- The `BFSResultado` struct of `GrafoBase.hpp`, shared by both
traversals: visited nodes in first-visit order plus the two parallel
induced-edge vectors. -/
structure BFSResultado where
  nodos : List Nat
  aristas_origen : List Nat
  aristas_destino : List Nat
deriving DecidableEq

/-- A strict upper bound on every entry of `colIndices`, used only as a
termination measure for the traversal loops. -/
def cotaCI (g : GrafoDisperso) : Nat := g.colIndices.foldl max 0 + 1

theorem init_le_foldl_max (l : List Nat) : ∀ a, a ≤ l.foldl max a := by
  induction l with
  | nil => intro a; simp
  | cons b l ih => intro a; exact le_trans (le_max_left a b) (ih (max a b))

theorem le_foldl_max (l : List Nat) (a : Nat) : ∀ x ∈ l, x ≤ l.foldl max a := by
  induction l generalizing a with
  | nil => simp
  | cons b l ih =>
    intro x hx
    rcases List.mem_cons.mp hx with h | h
    · subst h
      exact le_trans (le_max_right a x) (init_le_foldl_max l (max a x))
    · exact ih (max a b) x h

theorem mem_vecinosCSR_mem_colIndices (g : GrafoDisperso) (nodo v : Nat)
    (h : v ∈ vecinosCSR g nodo) : v ∈ g.colIndices :=
  List.drop_subset _ _ (List.take_subset _ _ h)

theorem vecinosCSR_lt_cota (g : GrafoDisperso) (nodo v : Nat)
    (h : v ∈ vecinosCSR g nodo) : v < cotaCI g :=
  Nat.lt_succ_of_le (le_foldl_max _ 0 v (mem_vecinosCSR_mem_colIndices g nodo v h))

/-- Body of the inner neighbor loop of `GrafoDisperso::bfsConDetalle`: the
induced edge `(nodo, vecino)` is recorded unconditionally, then an
unvisited neighbor is marked, appended to the visited order and enqueued at
`nivel + 1`.  The state is (visited set, queue, result). -/
def pasoVecinoBFS (nodo nivel : Nat)
    (st : Finset Nat × List (Nat × Nat) × BFSResultado) (vecino : Nat) :
    Finset Nat × List (Nat × Nat) × BFSResultado :=
  let res1 := { st.2.2 with
    aristas_origen := st.2.2.aristas_origen ++ [nodo],
    aristas_destino := st.2.2.aristas_destino ++ [vecino] }
  if vecino ∈ st.1 then (st.1, st.2.1, res1)
  else (insert vecino st.1, st.2.1 ++ [(vecino, nivel + 1)],
        { res1 with nodos := res1.nodos ++ [vecino] })

theorem medida_foldl_pasoVecinoBFS (cota nodo nivel : Nat) (vs : List Nat)
    (hv : ∀ v ∈ vs, v < cota) :
    ∀ (vis : Finset Nat) (cola : List (Nat × Nat)) (res : BFSResultado),
      (Finset.range cota \ (vs.foldl (pasoVecinoBFS nodo nivel) (vis, cola, res)).1).card
          + (vs.foldl (pasoVecinoBFS nodo nivel) (vis, cola, res)).2.1.length
        ≤ (Finset.range cota \ vis).card + cola.length := by
  induction vs with
  | nil => intro vis cola res; simp
  | cons v vs ih =>
    intro vis cola res
    have hv' : ∀ x ∈ vs, x < cota := fun x hx => hv x (List.mem_cons_of_mem _ hx)
    simp only [List.foldl_cons]
    by_cases hvv : v ∈ vis
    · simpa [pasoVecinoBFS, hvv] using ih hv' vis cola _
    · have hmem : v ∈ Finset.range cota \ vis := by
        simp only [Finset.mem_sdiff, Finset.mem_range]
        exact ⟨hv v (List.mem_cons_self v vs), hvv⟩
      have hcard : (Finset.range cota \ insert v vis).card
          = (Finset.range cota \ vis).card - 1 := by
        rw [Finset.sdiff_insert, Finset.card_erase_of_mem hmem]
      have hpos : 0 < (Finset.range cota \ vis).card := Finset.card_pos.mpr ⟨v, hmem⟩
      rw [show pasoVecinoBFS nodo nivel (vis, cola, res) v =
        (insert v vis, cola ++ [(v, nivel + 1)],
         { nodos := res.nodos ++ [v], aristas_origen := res.aristas_origen ++ [nodo],
           aristas_destino := res.aristas_destino ++ [v] }) from by
        simp [pasoVecinoBFS, hvv]]
      have h3 := ih hv' (insert v vis) (cola ++ [(v, nivel + 1)])
        { nodos := res.nodos ++ [v], aristas_origen := res.aristas_origen ++ [nodo],
          aristas_destino := res.aristas_destino ++ [v] }
      simp only [List.length_append, List.length_cons, List.length_nil] at h3 ⊢
      omega

/-- The while loop of `GrafoDisperso::bfsConDetalle`: dequeue a
`(node, level)` pair, skip it at the depth bound, and otherwise run the
neighbor loop, which appends newly discovered nodes to the back of the
queue.  Returns the final visited set together with the result. -/
def bfsLoop (g : GrafoDisperso) (d : Nat) (cola : List (Nat × Nat))
    (vis : Finset Nat) (res : BFSResultado) : Finset Nat × BFSResultado :=
  match cola with
  | [] => (vis, res)
  | (nodo, nivel) :: resto =>
    if d ≤ nivel then bfsLoop g d resto vis res
    else
      let st := (vecinosCSR g nodo).foldl (pasoVecinoBFS nodo nivel) (vis, resto, res)
      bfsLoop g d st.2.1 st.1 st.2.2
termination_by (Finset.range (cotaCI g) \ vis).card + cola.length
decreasing_by
  · simp only [List.length_cons]
    omega
  · have h1 := medida_foldl_pasoVecinoBFS (cotaCI g) nodo nivel (vecinosCSR g nodo)
      (fun v hv => vecinosCSR_lt_cota g nodo v hv) vis resto res
    simp only [List.length_cons]
    omega

/-- `GrafoDisperso::bfsConDetalle`: an empty graph or out-of-range source
yields the empty result; otherwise the source is marked, recorded and
enqueued at level 0 before the loop runs. -/
def bfsConDetalle (g : GrafoDisperso) (origen : Int) (profundidadMaxima : Nat) :
    BFSResultado :=
  if g.totalNodos = 0 ∨ origen < 0 ∨ g.totalNodos ≤ origen.toNat then
    { nodos := [], aristas_origen := [], aristas_destino := [] }
  else
    (bfsLoop g profundidadMaxima [(origen.toNat, 0)] {origen.toNat}
      { nodos := [origen.toNat], aristas_origen := [], aristas_destino := [] }).2

/-- Stack frame of the corrected (second) DFS loop: node, level and the
parent id, `-1` for the source. -/
structure Frame where
  nodo : Nat
  nivel : Nat
  padre : Int
deriving DecidableEq

/-- The push loop of the DFS expansion: the slice is walked by descending
index (hence over the reversed neighbor list), and each neighbor unvisited
at push time is pushed on top of the stack with the current node as parent.
The stack has its top at the head. -/
def apilarHijos (g : GrafoDisperso) (nodo nivel : Nat) (vis : Finset Nat)
    (pila : List Frame) : List Frame :=
  (vecinosCSR g nodo).reverse.foldl
    (fun p v =>
      if v ∈ vis then p
      else { nodo := v, nivel := nivel + 1, padre := (nodo : Int) } :: p)
    pila

theorem apilarHijos_eq (g : GrafoDisperso) (nodo nivel : Nat) (vis : Finset Nat)
    (pila : List Frame) :
    apilarHijos g nodo nivel vis pila =
      ((vecinosCSR g nodo).filter (fun v => decide (v ∉ vis))).map
        (fun v => { nodo := v, nivel := nivel + 1, padre := (nodo : Int) }) ++ pila := by
  unfold apilarHijos
  rw [List.foldl_reverse]
  induction vecinosCSR g nodo with
  | nil => simp
  | cons v vs ih =>
    simp only [List.foldr_cons, List.filter_cons, ih]
    by_cases hv : v ∈ vis
    · simp [hv]
    · simp [hv]

/-- Node set of a stack, for the termination measure of the DFS loop. -/
def nodosPila (pila : List Frame) : Finset Nat := (pila.map Frame.nodo).toFinset

theorem nodosPila_apilarHijos (g : GrafoDisperso) (nodo nivel : Nat)
    (vis : Finset Nat) (pila : List Frame) :
    nodosPila (apilarHijos g nodo nivel vis pila)
      ⊆ (vecinosCSR g nodo).toFinset ∪ nodosPila pila := by
  rw [apilarHijos_eq]
  intro x hx
  simp only [nodosPila, List.map_append, List.toFinset_append, Finset.mem_union,
    List.map_map, List.mem_toFinset, List.mem_map, Function.comp] at hx
  rcases hx with ⟨v, hv, hx⟩ | hx
  · apply Finset.mem_union_left
    simp only [List.mem_toFinset]
    have hx' : v = x := hx
    exact hx' ▸ List.mem_of_mem_filter hv
  · apply Finset.mem_union_right
    simpa [nodosPila, List.mem_toFinset] using hx

theorem medidaDFS_visita (cota : Nat) (f : Frame) (resto : List Frame)
    (vis : Finset Nat) (h : f.nodo ∉ vis) (pila' : List Frame)
    (hsub : nodosPila pila' ⊆ Finset.range cota ∪ nodosPila resto) :
    ((Finset.range cota ∪ nodosPila pila') \ insert f.nodo vis).card
      < ((Finset.range cota ∪ nodosPila (f :: resto)) \ vis).card := by
  have hf : f.nodo ∈ (Finset.range cota ∪ nodosPila (f :: resto)) \ vis := by
    simp only [Finset.mem_sdiff, Finset.mem_union, nodosPila, List.map_cons,
      List.toFinset_cons, Finset.mem_insert, List.mem_toFinset]
    simp only [true_or, or_true, true_and]
    exact h
  have hsub2 : (Finset.range cota ∪ nodosPila pila') \ insert f.nodo vis
      ⊆ ((Finset.range cota ∪ nodosPila (f :: resto)) \ vis).erase f.nodo := by
    intro x hx
    simp only [Finset.mem_sdiff, Finset.mem_insert, not_or, Finset.mem_union,
      Finset.mem_erase] at hx ⊢
    refine ⟨hx.2.1, ?_, hx.2.2⟩
    rcases hx.1 with hr | hp
    · exact Or.inl hr
    · have := hsub hp
      simp only [Finset.mem_union, nodosPila, List.map_cons, List.toFinset_cons,
        Finset.mem_insert, List.mem_toFinset] at this ⊢
      rcases this with hr | hrest
      · exact Or.inl hr
      · exact Or.inr (Or.inr hrest)
  calc ((Finset.range cota ∪ nodosPila pila') \ insert f.nodo vis).card
      ≤ (((Finset.range cota ∪ nodosPila (f :: resto)) \ vis).erase f.nodo).card :=
        Finset.card_le_card hsub2
    _ < ((Finset.range cota ∪ nodosPila (f :: resto)) \ vis).card :=
        Finset.card_erase_lt_of_mem hf

theorem medidaDFS_salta (cota : Nat) (f : Frame) (resto : List Frame)
    (vis : Finset Nat) :
    ((Finset.range cota ∪ nodosPila resto) \ vis).card
      ≤ ((Finset.range cota ∪ nodosPila (f :: resto)) \ vis).card := by
  apply Finset.card_le_card
  apply Finset.sdiff_subset_sdiff _ le_rfl
  apply Finset.union_subset_union le_rfl
  simp only [nodosPila, List.map_cons, List.toFinset_cons]
  exact Finset.subset_insert _ _

/-- The while loop of the corrected (second) DFS in
`GrafoDisperso::dfsConDetalle`: pop a frame; a frame whose node is already
visited is discarded; otherwise the node is marked and recorded, the tree
edge from its parent is recorded unless the parent is the sentinel, and
below the depth bound its unvisited neighbors are pushed.  The first,
aborted loop of the C++ function only writes state that is cleared again
(`resultado.nodos`, `visitado` and the first stack) before this loop
starts, so it has no effect on the returned data and is not modelled.
Returns the final visited set together with the result. -/
def dfsLoop (g : GrafoDisperso) (d : Nat) (pila : List Frame)
    (vis : Finset Nat) (res : BFSResultado) : Finset Nat × BFSResultado :=
  match pila with
  | [] => (vis, res)
  | f :: resto =>
    if hv : f.nodo ∈ vis then dfsLoop g d resto vis res
    else
      let vis1 := insert f.nodo vis
      let res0 := { res with nodos := res.nodos ++ [f.nodo] }
      let res1 :=
        if f.padre ≠ -1 then
          { res0 with aristas_origen := res0.aristas_origen ++ [f.padre.toNat],
                      aristas_destino := res0.aristas_destino ++ [f.nodo] }
        else res0
      if d ≤ f.nivel then dfsLoop g d resto vis1 res1
      else dfsLoop g d (apilarHijos g f.nodo f.nivel vis1 resto) vis1 res1
termination_by (((Finset.range (cotaCI g) ∪ nodosPila pila) \ vis).card, pila.length)
decreasing_by
  · rcases lt_or_eq_of_le (medidaDFS_salta (cotaCI g) f resto vis) with h2 | h2
    · exact Prod.Lex.left _ _ h2
    · rw [h2]
      apply Prod.Lex.right
      simp
  · apply Prod.Lex.left
    apply medidaDFS_visita _ _ _ _ hv
    intro x hx
    exact Finset.mem_union_right _ hx
  · apply Prod.Lex.left
    apply medidaDFS_visita _ _ _ _ hv
    intro x hx
    have hm := nodosPila_apilarHijos g f.nodo f.nivel (insert f.nodo vis) resto hx
    simp only [Finset.mem_union, List.mem_toFinset] at hm
    rcases hm with hvv | hr
    · apply Finset.mem_union_left
      simp only [Finset.mem_range]
      exact vecinosCSR_lt_cota g f.nodo x hvv
    · exact Finset.mem_union_right _ hr

/-- `GrafoDisperso::dfsConDetalle`: an empty graph or out-of-range source
yields the empty result; otherwise the loop starts from the single frame
`(origen, 0, -1)` with nothing visited. -/
def dfsConDetalle (g : GrafoDisperso) (origen : Int) (profundidadMaxima : Nat) :
    BFSResultado :=
  if g.totalNodos = 0 ∨ origen < 0 ∨ g.totalNodos ≤ origen.toNat then
    { nodos := [], aristas_origen := [], aristas_destino := [] }
  else
    (dfsLoop g profundidadMaxima [{ nodo := origen.toNat, nivel := 0, padre := -1 }] ∅
      { nodos := [], aristas_origen := [], aristas_destino := [] }).2

/-- Conversion of a C++ `int` argument to the `size_t` parameter
`profundidadMaxima`: unsigned conversion reduces the value modulo 2^64. -/
def sizeTDeInt (x : Int) : Nat := (x % (2 : Int) ^ 64).toNat

/-! ## Concrete example graphs

The four-edge graph of the testable-properties section of the
specification, and a one-edge graph used for depth-bound scenarios. -/

/-- Input lines of the concrete scenario `(0,1),(0,2),(1,2),(2,0)`. -/
def lineasEjemplo : List (List Char) :=
  ["0 1\n".data, "0 2\n".data, "1 2\n".data, "2 0\n".data]

/-- The graph state built from `lineasEjemplo` (load duration 7). -/
def gEjemplo : GrafoDisperso :=
  { totalNodos := 3, totalAristas := 4, ultimoTiempoCargaMs := 7,
    rowPtr := [0, 2, 3, 4], colIndices := [1, 2, 2, 0], grados := [2, 1, 1] }

theorem cargar_lineasEjemplo : cargarDatos GrafoDisperso.nuevo (some lineasEjemplo) 7 =
    (true, gEjemplo) := by decide

/-- Input with the single edge `(0,1)`. -/
def lineasUnaArista : List (List Char) := ["0 1\n".data]

/-- The graph state built from `lineasUnaArista` (load duration 0). -/
def gUnaArista : GrafoDisperso :=
  { totalNodos := 2, totalAristas := 1, ultimoTiempoCargaMs := 0,
    rowPtr := [0, 1, 1], colIndices := [1], grados := [1, 0] }

theorem cargar_lineasUnaArista : cargarDatos GrafoDisperso.nuevo (some lineasUnaArista) 0 =
    (true, gUnaArista) := by decide

/-! ## Claim C10: a failed load leaves the state unchanged -/

/-- C10: when `cargarDatos` fails (unopenable source or zero accepted
edges), the returned state equals the state before the call: both early
returns of the C++ function happen before any member assignment, so
`totalNodos`, `totalAristas`, `rowPtr`, `colIndices`, `grados` and
`ultimoTiempoCargaMs` all keep their previous values. -/
theorem cargar_fallido_estado_intacto (g : GrafoDisperso)
    (contenido : Option (List (List Char))) (t : Nat)
    (h : (cargarDatos g contenido t).1 = false) :
    (cargarDatos g contenido t).2 = g := by
  cases contenido with
  | none => rfl
  | some lineas =>
    by_cases hm : maxIdDe (lineas.filterMap procesarLinea) < 0
    · simp [cargarDatos, hm]
    · simp [cargarDatos, hm] at h

theorem cargar_fallido_estado_intacto_testigo :
    (cargarDatos GrafoDisperso.nuevo none 3).1 = false ∧
      (cargarDatos GrafoDisperso.nuevo none 3).2 = GrafoDisperso.nuevo :=
  ⟨rfl, cargar_fallido_estado_intacto GrafoDisperso.nuevo none 3 rfl⟩

/-! ## Claim C5: the two load failures are not distinguishable -/

/-- C5 counterexample: the claim says the caller of `cargarDatos` can tell
an unopenable source apart from a source with zero valid edges through the
returned result.  In the code both failure paths `return false` and leave
the object untouched, so the two calls return completely identical
results; the causes are only distinguishable through the stderr log
messages. -/
theorem cargar_fallos_indistinguibles :
    (cargarDatos GrafoDisperso.nuevo none 0).1 = false ∧
      (cargarDatos GrafoDisperso.nuevo (some ["# solo comentario\n".data]) 0).1 = false ∧
      cargarDatos GrafoDisperso.nuevo none 0 =
        cargarDatos GrafoDisperso.nuevo (some ["# solo comentario\n".data]) 0 := by
  decide

/-- C5 amended: `cargarDatos` fails on an unopenable source and on a
source with zero accepted edges, but both failures produce the same
result value `false` (with the state unchanged), so the returned result
does not discriminate the two causes. -/
theorem cargar_fallo_booleano (g : GrafoDisperso) (t : Nat) (lineas : List (List Char))
    (h : lineas.filterMap procesarLinea = []) :
    cargarDatos g none t = (false, g) ∧ cargarDatos g (some lineas) t = (false, g) := by
  refine ⟨rfl, ?_⟩
  simp [cargarDatos, h, maxIdDe]

theorem cargar_fallo_booleano_testigo :
    (["# solo comentario\n".data].filterMap procesarLinea = []) ∧
      (cargarDatos GrafoDisperso.nuevo none 5 = (false, GrafoDisperso.nuevo) ∧
       cargarDatos GrafoDisperso.nuevo (some ["# solo comentario\n".data]) 5 =
         (false, GrafoDisperso.nuevo)) :=
  ⟨by decide, cargar_fallo_booleano GrafoDisperso.nuevo 5 _ (by decide)⟩

/-! ## Claim C6: silent degradation of queries on invalid input -/

/-- C6 amended: `obtenerVecinos` on an out-of-range node, and both
traversals on an empty graph or an out-of-range source, return empty
results (all query operations are total functions, so no error can be
raised).  The depth parameter however has type `size_t`, so a negative
depth bound cannot reach the traversal code as a negative number; see the
counterexample for what a converted negative argument produces. -/
theorem consultas_invalidas_vacias :
    (∀ (g : GrafoDisperso) (nodo : Int), nodo < 0 ∨ g.totalNodos ≤ nodo.toNat →
        obtenerVecinos g nodo = []) ∧
    (∀ (g : GrafoDisperso) (s : Int) (d : Nat),
        g.totalNodos = 0 ∨ s < 0 ∨ g.totalNodos ≤ s.toNat →
        bfsConDetalle g s d = { nodos := [], aristas_origen := [], aristas_destino := [] } ∧
        dfsConDetalle g s d = { nodos := [], aristas_origen := [], aristas_destino := [] }) := by
  refine ⟨?_, ?_⟩
  · intro g nodo h
    simp only [obtenerVecinos]
    rw [if_pos h]
  · intro g s d h
    constructor
    · simp only [bfsConDetalle]
      rw [if_pos h]
    · simp only [dfsConDetalle]
      rw [if_pos h]

theorem consultas_invalidas_vacias_testigo :
    obtenerVecinos GrafoDisperso.nuevo 5 = [] ∧
      (bfsConDetalle gUnaArista (-3) 7 =
          { nodos := [], aristas_origen := [], aristas_destino := [] } ∧
        dfsConDetalle gUnaArista (-3) 7 =
          { nodos := [], aristas_origen := [], aristas_destino := [] }) :=
  ⟨consultas_invalidas_vacias.1 GrafoDisperso.nuevo 5 (by decide),
   consultas_invalidas_vacias.2 gUnaArista (-3) 7 (by decide)⟩

/-! ## Lemmas about the BFS expansion fold -/

theorem pasoVecinoBFS_visitado (nodo nivel v : Nat) (vis : Finset Nat)
    (cola : List (Nat × Nat)) (res : BFSResultado) (h : v ∈ vis) :
    pasoVecinoBFS nodo nivel (vis, cola, res) v =
      (vis, cola,
       { nodos := res.nodos, aristas_origen := res.aristas_origen ++ [nodo],
         aristas_destino := res.aristas_destino ++ [v] }) := by
  simp [pasoVecinoBFS, h]

theorem pasoVecinoBFS_nuevo (nodo nivel v : Nat) (vis : Finset Nat)
    (cola : List (Nat × Nat)) (res : BFSResultado) (h : v ∉ vis) :
    pasoVecinoBFS nodo nivel (vis, cola, res) v =
      (insert v vis, cola ++ [(v, nivel + 1)],
       { nodos := res.nodos ++ [v], aristas_origen := res.aristas_origen ++ [nodo],
         aristas_destino := res.aristas_destino ++ [v] }) := by
  simp [pasoVecinoBFS, h]

theorem pvb_fold_vis (nodo nivel : Nat) (vs : List Nat) :
    ∀ (vis : Finset Nat) (cola : List (Nat × Nat)) (res : BFSResultado),
      (vs.foldl (pasoVecinoBFS nodo nivel) (vis, cola, res)).1 = vis ∪ vs.toFinset := by
  induction vs with
  | nil => intro vis cola res; simp
  | cons v vs ih =>
    intro vis cola res
    simp only [List.foldl_cons, List.toFinset_cons]
    by_cases hv : v ∈ vis
    · rw [pasoVecinoBFS_visitado _ _ _ _ _ _ hv, ih]
      rw [Finset.union_insert, Finset.insert_eq_self.mpr (Finset.mem_union_left _ hv)]
    · rw [pasoVecinoBFS_nuevo _ _ _ _ _ _ hv, ih]
      rw [Finset.insert_union, Finset.union_insert]

theorem pvb_fold_aristas (nodo nivel : Nat) (vs : List Nat) :
    ∀ (vis : Finset Nat) (cola : List (Nat × Nat)) (res : BFSResultado),
      (vs.foldl (pasoVecinoBFS nodo nivel) (vis, cola, res)).2.2.aristas_origen
          = res.aristas_origen ++ vs.map (fun _ => nodo) ∧
        (vs.foldl (pasoVecinoBFS nodo nivel) (vis, cola, res)).2.2.aristas_destino
          = res.aristas_destino ++ vs := by
  induction vs with
  | nil => intro vis cola res; simp
  | cons v vs ih =>
    intro vis cola res
    simp only [List.foldl_cons, List.map_cons]
    by_cases hv : v ∈ vis
    · rw [pasoVecinoBFS_visitado _ _ _ _ _ _ hv]
      rcases ih vis cola _ with ⟨ho, hd⟩
      rw [ho, hd]
      simp
    · rw [pasoVecinoBFS_nuevo _ _ _ _ _ _ hv]
      rcases ih (insert v vis) (cola ++ [(v, nivel + 1)]) _ with ⟨ho, hd⟩
      rw [ho, hd]
      simp

theorem pvb_fold_cola_shift (nodo nivel : Nat) (vs : List Nat) :
    ∀ (vis : Finset Nat) (cola : List (Nat × Nat)) (res : BFSResultado),
      vs.foldl (pasoVecinoBFS nodo nivel) (vis, cola, res)
        = ((vs.foldl (pasoVecinoBFS nodo nivel) (vis, [], res)).1,
           cola ++ (vs.foldl (pasoVecinoBFS nodo nivel) (vis, [], res)).2.1,
           (vs.foldl (pasoVecinoBFS nodo nivel) (vis, [], res)).2.2) := by
  induction vs with
  | nil => intro vis cola res; simp
  | cons v vs ih =>
    intro vis cola res
    simp only [List.foldl_cons]
    by_cases hv : v ∈ vis
    · rw [pasoVecinoBFS_visitado _ _ _ _ _ _ hv, pasoVecinoBFS_visitado _ _ _ _ [] _ hv]
      exact ih vis cola _
    · rw [pasoVecinoBFS_nuevo _ _ _ _ _ _ hv, pasoVecinoBFS_nuevo _ _ _ _ [] _ hv]
      rw [ih (insert v vis) (cola ++ [(v, nivel + 1)]) _,
        ih (insert v vis) (List.nil ++ [(v, nivel + 1)]) _]
      simp

theorem pvb_fold_cola_mem (nodo nivel : Nat) (vs : List Nat) :
    ∀ (vis : Finset Nat) (cola : List (Nat × Nat)) (res : BFSResultado),
      ∀ p ∈ (vs.foldl (pasoVecinoBFS nodo nivel) (vis, cola, res)).2.1,
        p ∈ cola ∨ (p.2 = nivel + 1 ∧ p.1 ∈ vs ∧ p.1 ∉ vis) := by
  induction vs with
  | nil => intro vis cola res p hp; exact Or.inl hp
  | cons v vs ih =>
    intro vis cola res p hp
    simp only [List.foldl_cons] at hp
    by_cases hv : v ∈ vis
    · rw [pasoVecinoBFS_visitado _ _ _ _ _ _ hv] at hp
      rcases ih vis cola _ p hp with h | ⟨h1, h2, h3⟩
      · exact Or.inl h
      · exact Or.inr ⟨h1, List.mem_cons_of_mem _ h2, h3⟩
    · rw [pasoVecinoBFS_nuevo _ _ _ _ _ _ hv] at hp
      rcases ih (insert v vis) (cola ++ [(v, nivel + 1)]) _ p hp with h | ⟨h1, h2, h3⟩
      · rcases List.mem_append.mp h with h | h
        · exact Or.inl h
        · have hpv : p = (v, nivel + 1) := by simpa using h
          subst hpv
          exact Or.inr ⟨rfl, List.mem_cons_self _ _, hv⟩
      · refine Or.inr ⟨h1, List.mem_cons_of_mem _ h2, fun hc => h3 ?_⟩
        exact Finset.mem_insert_of_mem hc

theorem pvb_fold_nodos (nodo nivel : Nat) (vs : List Nat) :
    ∀ (vis : Finset Nat) (cola : List (Nat × Nat)) (res : BFSResultado),
      (∀ x, x ∈ res.nodos ↔ x ∈ vis) →
      ∀ x, x ∈ (vs.foldl (pasoVecinoBFS nodo nivel) (vis, cola, res)).2.2.nodos
        ↔ x ∈ (vs.foldl (pasoVecinoBFS nodo nivel) (vis, cola, res)).1 := by
  induction vs with
  | nil => intro vis cola res h x; exact h x
  | cons v vs ih =>
    intro vis cola res h x
    simp only [List.foldl_cons]
    by_cases hv : v ∈ vis
    · rw [pasoVecinoBFS_visitado _ _ _ _ _ _ hv]
      exact ih vis cola
        { nodos := res.nodos, aristas_origen := res.aristas_origen ++ [nodo],
          aristas_destino := res.aristas_destino ++ [v] } h x
    · rw [pasoVecinoBFS_nuevo _ _ _ _ _ _ hv]
      refine ih (insert v vis) (cola ++ [(v, nivel + 1)]) _ ?_ x
      intro y
      simp only [List.mem_append, List.mem_singleton, Finset.mem_insert, h y]
      tauto

theorem pvb_fold_nuevos_set (nodo nivel : Nat) (vs : List Nat) :
    ∀ (vis : Finset Nat) (cola : List (Nat × Nat)) (res : BFSResultado),
      (((vs.foldl (pasoVecinoBFS nodo nivel) (vis, cola, res)).2.1.map Prod.fst).toFinset)
        = (cola.map Prod.fst).toFinset ∪ (vs.toFinset \ vis) := by
  induction vs with
  | nil => intro vis cola res; simp
  | cons v vs ih =>
    intro vis cola res
    simp only [List.foldl_cons, List.toFinset_cons]
    by_cases hv : v ∈ vis
    · rw [pasoVecinoBFS_visitado _ _ _ _ _ _ hv, ih vis cola _,
        Finset.insert_sdiff_of_mem _ hv]
    · rw [pasoVecinoBFS_nuevo _ _ _ _ _ _ hv, ih (insert v vis) (cola ++ [(v, nivel + 1)]) _]
      ext x
      simp only [Finset.mem_union, List.mem_toFinset, List.map_append, List.mem_append,
        List.mem_map, Finset.mem_sdiff, Finset.mem_insert, List.mem_singleton]
      constructor
      · rintro ((hx | ⟨q, hq1, hq2⟩) | ⟨hx1, hx2⟩)
        · exact Or.inl hx
        · rcases hq1 with rfl
          subst hq2
          exact Or.inr ⟨Or.inl rfl, hv⟩
        · exact Or.inr ⟨Or.inr hx1, fun hc => hx2 (Or.inr hc)⟩
      · rintro (hx | ⟨hx1 | hx1, hx2⟩)
        · exact Or.inl (Or.inl hx)
        · subst hx1
          exact Or.inl (Or.inr ⟨(x, nivel + 1), rfl, rfl⟩)
        · by_cases hxv : x = v
          · subst hxv
            exact Or.inl (Or.inr ⟨(x, nivel + 1), rfl, rfl⟩)
          · exact Or.inr ⟨hx1, fun hc => absurd hc (by simp [hxv, hx2])⟩

/-! ## Claim C3: BFS records every examined edge, enqueues only new nodes -/

/-- C3: one expansion of a dequeued node below the depth bound appends one
induced edge per neighbor to the edge vectors, visited neighbors included;
the queue grows only with entries at level `nivel + 1` whose node is an
unvisited neighbor, and every neighbor ends up marked.  On the concrete
example graph, `bfs(0, 1)` yields nodes `[0, 1, 2]` and induced edges
`(0,1), (0,2)`. -/
theorem bfs_expansion_y_ejemplo :
    (∀ (g : GrafoDisperso) (nodo nivel : Nat) (vis : Finset Nat)
        (cola : List (Nat × Nat)) (res : BFSResultado),
      ((vecinosCSR g nodo).foldl (pasoVecinoBFS nodo nivel) (vis, cola, res)).2.2.aristas_origen
          = res.aristas_origen ++ (vecinosCSR g nodo).map (fun _ => nodo) ∧
      ((vecinosCSR g nodo).foldl (pasoVecinoBFS nodo nivel) (vis, cola, res)).2.2.aristas_destino
          = res.aristas_destino ++ vecinosCSR g nodo ∧
      (∀ v ∈ vecinosCSR g nodo,
        v ∈ ((vecinosCSR g nodo).foldl (pasoVecinoBFS nodo nivel) (vis, cola, res)).1) ∧
      (∀ p ∈ ((vecinosCSR g nodo).foldl (pasoVecinoBFS nodo nivel) (vis, cola, res)).2.1,
        p ∈ cola ∨ (p.2 = nivel + 1 ∧ p.1 ∈ vecinosCSR g nodo ∧ p.1 ∉ vis))) ∧
    bfsConDetalle gEjemplo 0 1 =
      { nodos := [0, 1, 2], aristas_origen := [0, 0], aristas_destino := [1, 2] } := by
  constructor
  · intro g nodo nivel vis cola res
    refine ⟨(pvb_fold_aristas nodo nivel _ vis cola res).1,
      (pvb_fold_aristas nodo nivel _ vis cola res).2, ?_, pvb_fold_cola_mem nodo nivel _ vis cola res⟩
    intro v hv
    rw [pvb_fold_vis]
    exact Finset.mem_union_right _ (List.mem_toFinset.mpr hv)
  · simp [bfsConDetalle, bfsLoop, pasoVecinoBFS, vecinosCSR, gEjemplo,
      -Prod.mk_zero_zero, -Prod.mk_one_one]

theorem bfs_expansion_y_ejemplo_testigo :
    (((vecinosCSR gEjemplo 0).foldl (pasoVecinoBFS 0 0)
        ({0}, [], { nodos := [0], aristas_origen := [], aristas_destino := [] })).2.2.aristas_origen
      = [] ++ (vecinosCSR gEjemplo 0).map (fun _ => 0)) ∧
      ((1, 1) ∈ ((vecinosCSR gEjemplo 0).foldl (pasoVecinoBFS 0 0)
          ({0}, [], { nodos := [0], aristas_origen := [], aristas_destino := [] })).2.1 →
        (1, 1) ∈ ([] : List (Nat × Nat)) ∨
          ((1, 1).2 = 0 + 1 ∧ (1, 1).1 ∈ vecinosCSR gEjemplo 0 ∧ (1, 1).1 ∉ ({0} : Finset Nat))) :=
  ⟨(bfs_expansion_y_ejemplo.1 gEjemplo 0 0 {0} []
      { nodos := [0], aristas_origen := [], aristas_destino := [] }).1,
   fun hmem => (bfs_expansion_y_ejemplo.1 gEjemplo 0 0 {0} []
      { nodos := [0], aristas_origen := [], aristas_destino := [] }).2.2.2 (1, 1) hmem⟩

/-! ## Lemmas about the DFS loop: tree structure of the recorded edges -/

theorem getD_append_izq (l l' : List Nat) (i : Nat) (h : i < l.length) :
    (l ++ l').getD i 0 = l.getD i 0 := by
  simp [List.getD_eq_getElem?_getD, List.getElem?_append, h]

theorem getD_append_fin (l : List Nat) (a : Nat) :
    (l ++ [a]).getD l.length 0 = a := by
  simp [List.getD_eq_getElem?_getD, List.getElem?_concat_length]

theorem dfsLoop_invariante (g : GrafoDisperso) (d : Nat) (s : Nat) :
    ∀ (pila : List Frame) (vis : Finset Nat) (res : BFSResultado),
      (∀ f ∈ pila, f.padre ≠ -1) →
      (∀ f ∈ pila, f.padre.toNat ∈ res.nodos) →
      res.nodos = s :: res.aristas_destino →
      res.aristas_origen.length = res.aristas_destino.length →
      (∀ i, i < res.aristas_origen.length →
        res.aristas_origen.getD i 0 ∈ res.nodos.take (i + 1)) →
      res.nodos.Nodup →
      (∀ x, x ∈ res.nodos ↔ x ∈ vis) →
      ((dfsLoop g d pila vis res).2.nodos
          = s :: (dfsLoop g d pila vis res).2.aristas_destino ∧
        (dfsLoop g d pila vis res).2.aristas_origen.length
          = (dfsLoop g d pila vis res).2.aristas_destino.length ∧
        (∀ i, i < (dfsLoop g d pila vis res).2.aristas_origen.length →
          (dfsLoop g d pila vis res).2.aristas_origen.getD i 0
            ∈ (dfsLoop g d pila vis res).2.nodos.take (i + 1)) ∧
        (dfsLoop g d pila vis res).2.nodos.Nodup) := by
  intro pila vis res
  induction pila, vis, res using dfsLoop.induct g d with
  | case1 vis res =>
    intro _ _ h3 h4 h5 h6 _
    rw [dfsLoop]
    exact ⟨h3, h4, h5, h6⟩
  | case2 vis res f resto hv ih =>
    intro h1 h2 h3 h4 h5 h6 h7
    rw [dfsLoop, dif_pos hv]
    exact ih (fun x hx => h1 x (List.mem_cons_of_mem _ hx))
      (fun x hx => h2 x (List.mem_cons_of_mem _ hx)) h3 h4 h5 h6 h7
  | case3 vis res f resto hv vis1 res0 res1 hniv ih =>
    intro h1 h2 h3 h4 h5 h6 h7
    have hpadre : f.padre ≠ -1 := h1 f (List.mem_cons_self _ _)
    have hres1 : res1 =
        { nodos := res.nodos ++ [f.nodo],
          aristas_origen := res.aristas_origen ++ [f.padre.toNat],
          aristas_destino := res.aristas_destino ++ [f.nodo] } := by
      simp only [res1, res0]
      rw [dif_pos hpadre]
    rw [hres1] at ih
    rw [dfsLoop]
    simp only [dif_neg hv, if_pos hpadre, if_pos hniv]
    refine ih ?_ ?_ ?_ ?_ ?_ ?_ ?_ <;> try dsimp only
    · intro x hx
      exact h1 x (List.mem_cons_of_mem _ hx)
    · intro x hx
      exact List.mem_append_left _ (h2 x (List.mem_cons_of_mem _ hx))
    · simp only [h3]
      rfl
    · simp only [List.length_append, List.length_cons, List.length_nil, h4]
    · intro i hi
      simp only [List.length_append, List.length_cons, List.length_nil] at hi
      by_cases hilt : i < res.aristas_origen.length
      · rw [getD_append_izq _ _ _ hilt]
        have htake : (res.nodos ++ [f.nodo]).take (i + 1) = res.nodos.take (i + 1) := by
          apply List.take_append_of_le_length
          have : res.nodos.length = res.aristas_destino.length + 1 := by
            rw [h3]; simp
          omega
        rw [htake]
        exact h5 i hilt
      · have hieq : i = res.aristas_origen.length := by omega
        subst hieq
        rw [getD_append_fin]
        have hlen : res.aristas_origen.length + 1 = res.nodos.length := by
          rw [h3]; simp [h4]
        rw [show res.aristas_origen.length + 1 = res.nodos.length from hlen,
          List.take_left]
        exact h2 f (List.mem_cons_self _ _)
    · show (res.nodos ++ [f.nodo]).Nodup
      rw [List.nodup_append]
      refine ⟨h6, by simp, ?_⟩
      intro a ha hb
      have hab : a = f.nodo := by simpa using hb
      subst hab
      exact hv ((h7 f.nodo).mp ha)
    · show ∀ x, x ∈ res.nodos ++ [f.nodo] ↔ x ∈ insert f.nodo vis
      intro x
      simp only [List.mem_append, List.mem_singleton, Finset.mem_insert, h7 x]
      tauto
  | case4 vis res f resto hv vis1 res0 res1 hniv ih =>
    intro h1 h2 h3 h4 h5 h6 h7
    have hpadre : f.padre ≠ -1 := h1 f (List.mem_cons_self _ _)
    have hres1 : res1 =
        { nodos := res.nodos ++ [f.nodo],
          aristas_origen := res.aristas_origen ++ [f.padre.toNat],
          aristas_destino := res.aristas_destino ++ [f.nodo] } := by
      simp only [res1, res0]
      rw [dif_pos hpadre]
    rw [hres1] at ih
    unfold vis1 at ih
    rw [dfsLoop]
    simp only [dif_neg hv, if_pos hpadre, if_neg hniv]
    refine ih ?_ ?_ ?_ ?_ ?_ ?_ ?_ <;> try dsimp only
    · intro x hx
      rw [apilarHijos_eq] at hx
      rcases List.mem_append.mp hx with hx | hx
      · rcases List.mem_map.mp hx with ⟨v, _, rfl⟩
        intro hc
        simp only at hc
        omega
      · exact h1 x (List.mem_cons_of_mem _ hx)
    · intro x hx
      rw [apilarHijos_eq] at hx
      rcases List.mem_append.mp hx with hx | hx
      · rcases List.mem_map.mp hx with ⟨v, _, rfl⟩
        simp only [Int.toNat_natCast]
        exact List.mem_append_right _ (by simp)
      · exact List.mem_append_left _ (h2 x (List.mem_cons_of_mem _ hx))
    · simp only [h3]
      rfl
    · simp only [List.length_append, List.length_cons, List.length_nil, h4]
    · intro i hi
      simp only [List.length_append, List.length_cons, List.length_nil] at hi
      by_cases hilt : i < res.aristas_origen.length
      · rw [getD_append_izq _ _ _ hilt]
        have htake : (res.nodos ++ [f.nodo]).take (i + 1) = res.nodos.take (i + 1) := by
          apply List.take_append_of_le_length
          have : res.nodos.length = res.aristas_destino.length + 1 := by
            rw [h3]; simp
          omega
        rw [htake]
        exact h5 i hilt
      · have hieq : i = res.aristas_origen.length := by omega
        subst hieq
        rw [getD_append_fin]
        have hlen : res.aristas_origen.length + 1 = res.nodos.length := by
          rw [h3]; simp [h4]
        rw [show res.aristas_origen.length + 1 = res.nodos.length from hlen,
          List.take_left]
        exact h2 f (List.mem_cons_self _ _)
    · show (res.nodos ++ [f.nodo]).Nodup
      rw [List.nodup_append]
      refine ⟨h6, by simp, ?_⟩
      intro a ha hb
      have hab : a = f.nodo := by simpa using hb
      subst hab
      exact hv ((h7 f.nodo).mp ha)
    · show ∀ x, x ∈ res.nodos ++ [f.nodo] ↔ x ∈ insert f.nodo vis
      intro x
      simp only [List.mem_append, List.mem_singleton, Finset.mem_insert, h7 x]
      tauto

/-! ## Claim C2: DFS records one tree edge per non-source visited node -/

/-- C2: for any graph and valid source, at any depth bound, the DFS result
is a tree rooted at the source: the visit order starts at the source, the
edge destination vector is exactly the visit order without the source (one
recorded edge per visited node other than the source, each recorded at the
moment its destination is first visited, hence never towards an
already-visited node), each edge origin appears strictly earlier in the
visit order than its destination, the visited nodes are pairwise distinct,
and consequently the induced-edge count equals the visited count minus
one (at every depth bound, in particular at a fixpoint depth). -/
theorem dfs_arbol (g : GrafoDisperso) (s : Nat) (d : Nat) (hs : s < g.totalNodos) :
    (dfsConDetalle g (s : Int) d).nodos.head? = some s ∧
    (dfsConDetalle g (s : Int) d).nodos
      = s :: (dfsConDetalle g (s : Int) d).aristas_destino ∧
    (dfsConDetalle g (s : Int) d).aristas_origen.length
      = (dfsConDetalle g (s : Int) d).aristas_destino.length ∧
    (dfsConDetalle g (s : Int) d).aristas_origen.length
      = (dfsConDetalle g (s : Int) d).nodos.length - 1 ∧
    (∀ i, i < (dfsConDetalle g (s : Int) d).aristas_origen.length →
      (dfsConDetalle g (s : Int) d).aristas_origen.getD i 0
        ∈ (dfsConDetalle g (s : Int) d).nodos.take (i + 1)) ∧
    (dfsConDetalle g (s : Int) d).nodos.Nodup := by
  have hguard : ¬(g.totalNodos = 0 ∨ (s : Int) < 0 ∨ g.totalNodos ≤ (s : Int).toNat) := by
    push_neg
    refine ⟨by omega, by omega, by simpa using hs⟩
  have hres : dfsConDetalle g (s : Int) d
      = (dfsLoop g d [{ nodo := (s : Int).toNat, nivel := 0, padre := -1 }] ∅
          { nodos := [], aristas_origen := [], aristas_destino := [] }).2 := by
    rw [dfsConDetalle, if_neg hguard]
  have hsnat : (s : Int).toNat = s := by simp
  rw [hsnat] at hres
  have hpaso : dfsLoop g d [{ nodo := s, nivel := 0, padre := -1 }] ∅
      { nodos := [], aristas_origen := [], aristas_destino := [] }
      = if d = 0 then ({s}, { nodos := [s], aristas_origen := [], aristas_destino := [] })
        else
          dfsLoop g d (apilarHijos g s 0 {s} []) {s}
            { nodos := [s], aristas_origen := [], aristas_destino := [] } := by
    rw [dfsLoop]
    by_cases hd : d = 0
    · subst hd
      simp [dfsLoop]
    · simp [hd]
  have hinv : ((dfsConDetalle g (s : Int) d).nodos
      = s :: (dfsConDetalle g (s : Int) d).aristas_destino ∧
    (dfsConDetalle g (s : Int) d).aristas_origen.length
      = (dfsConDetalle g (s : Int) d).aristas_destino.length ∧
    (∀ i, i < (dfsConDetalle g (s : Int) d).aristas_origen.length →
      (dfsConDetalle g (s : Int) d).aristas_origen.getD i 0
        ∈ (dfsConDetalle g (s : Int) d).nodos.take (i + 1)) ∧
    (dfsConDetalle g (s : Int) d).nodos.Nodup) := by
    rw [hres, hpaso]
    by_cases hd : d = 0
    · rw [if_pos hd]
      refine ⟨rfl, rfl, ?_, by simp⟩
      intro i hi
      simp at hi
    · rw [if_neg hd]
      apply dfsLoop_invariante g d s
      · intro f hf
        rw [apilarHijos_eq] at hf
        rcases List.mem_append.mp hf with hf | hf
        · rcases List.mem_map.mp hf with ⟨v, _, rfl⟩
          intro hc
          simp only at hc
          omega
        · cases hf
      · intro f hf
        rw [apilarHijos_eq] at hf
        rcases List.mem_append.mp hf with hf | hf
        · rcases List.mem_map.mp hf with ⟨v, _, rfl⟩
          simp
        · cases hf
      · rfl
      · rfl
      · intro i hi
        simp at hi
      · simp
      · intro x
        simp
  refine ⟨?_, hinv.1, hinv.2.1, ?_, hinv.2.2.1, hinv.2.2.2⟩
  · rw [hinv.1]
    exact List.head?_cons
  · rw [hinv.1]
    simp [hinv.2.1]

theorem dfs_arbol_testigo :
    (0 < gEjemplo.totalNodos) ∧
      ((dfsConDetalle gEjemplo ((0 : Nat) : Int) 2).nodos.head? = some 0 ∧
        (dfsConDetalle gEjemplo ((0 : Nat) : Int) 2).nodos
          = 0 :: (dfsConDetalle gEjemplo ((0 : Nat) : Int) 2).aristas_destino ∧
        (dfsConDetalle gEjemplo ((0 : Nat) : Int) 2).aristas_origen.length
          = (dfsConDetalle gEjemplo ((0 : Nat) : Int) 2).aristas_destino.length ∧
        (dfsConDetalle gEjemplo ((0 : Nat) : Int) 2).aristas_origen.length
          = (dfsConDetalle gEjemplo ((0 : Nat) : Int) 2).nodos.length - 1 ∧
        (∀ i, i < (dfsConDetalle gEjemplo ((0 : Nat) : Int) 2).aristas_origen.length →
          (dfsConDetalle gEjemplo ((0 : Nat) : Int) 2).aristas_origen.getD i 0
            ∈ (dfsConDetalle gEjemplo ((0 : Nat) : Int) 2).nodos.take (i + 1)) ∧
        (dfsConDetalle gEjemplo ((0 : Nat) : Int) 2).nodos.Nodup) :=
  ⟨by decide, dfs_arbol gEjemplo 0 2 (by decide)⟩

/-! ## Claim C9: the iterative DFS reproduces the recursive visit order -/

/-- Node set of a worklist of `(node, depth)` pairs, for the termination
measure of the recursive DFS. -/
def nodosLista (l : List (Nat × Nat)) : Finset Nat := (l.map Prod.fst).toFinset

theorem medidaRec_salta (cota : Nat) (p : Nat × Nat) (resto : List (Nat × Nat))
    (vis : Finset Nat) :
    ((Finset.range cota ∪ nodosLista resto) \ vis).card
      ≤ ((Finset.range cota ∪ nodosLista (p :: resto)) \ vis).card := by
  apply Finset.card_le_card
  apply Finset.sdiff_subset_sdiff _ le_rfl
  apply Finset.union_subset_union le_rfl
  simp only [nodosLista, List.map_cons, List.toFinset_cons]
  exact Finset.subset_insert _ _

theorem medidaRec_visita (cota : Nat) (p : Nat × Nat) (resto : List (Nat × Nat))
    (vis : Finset Nat) (h : p.1 ∉ vis) (lista' : List (Nat × Nat))
    (hsub : nodosLista lista' ⊆ Finset.range cota ∪ nodosLista resto) :
    ((Finset.range cota ∪ nodosLista lista') \ insert p.1 vis).card
      < ((Finset.range cota ∪ nodosLista (p :: resto)) \ vis).card := by
  have hf : p.1 ∈ (Finset.range cota ∪ nodosLista (p :: resto)) \ vis := by
    simp only [Finset.mem_sdiff, Finset.mem_union, nodosLista, List.map_cons,
      List.toFinset_cons, Finset.mem_insert, List.mem_toFinset]
    simp only [true_or, or_true, true_and]
    exact h
  have hsub2 : (Finset.range cota ∪ nodosLista lista') \ insert p.1 vis
      ⊆ ((Finset.range cota ∪ nodosLista (p :: resto)) \ vis).erase p.1 := by
    intro x hx
    simp only [Finset.mem_sdiff, Finset.mem_insert, not_or, Finset.mem_union,
      Finset.mem_erase] at hx ⊢
    refine ⟨hx.2.1, ?_, hx.2.2⟩
    rcases hx.1 with hr | hp
    · exact Or.inl hr
    · have := hsub hp
      simp only [Finset.mem_union, nodosLista, List.map_cons, List.toFinset_cons,
        Finset.mem_insert, List.mem_toFinset] at this ⊢
      rcases this with hr | hrest
      · exact Or.inl hr
      · exact Or.inr (Or.inr hrest)
  calc ((Finset.range cota ∪ nodosLista lista') \ insert p.1 vis).card
      ≤ (((Finset.range cota ∪ nodosLista (p :: resto)) \ vis).erase p.1).card :=
        Finset.card_le_card hsub2
    _ < ((Finset.range cota ∪ nodosLista (p :: resto)) \ vis).card :=
        Finset.card_erase_lt_of_mem hf

/-- Specification-side definition for the refinement claim C9: the naive
bounded recursive DFS (visit the node, then recurse into its still
unvisited neighbors from left to right, not expanding nodes at the depth
bound), written with the pending recursive calls linearized into an
explicit worklist; prepending the neighbor list of the visited node to the
worklist is exactly the call-stack discipline of the recursion.  The
result is the visited set and the visit order. -/
def dfsRecAux (g : GrafoDisperso) (d : Nat) (lista : List (Nat × Nat))
    (vis : Finset Nat) (acc : List Nat) : Finset Nat × List Nat :=
  match lista with
  | [] => (vis, acc)
  | (u, niv) :: resto =>
    if hu : u ∈ vis then dfsRecAux g d resto vis acc
    else
      if d ≤ niv then dfsRecAux g d resto (insert u vis) (acc ++ [u])
      else
        dfsRecAux g d ((vecinosCSR g u).map (fun v => (v, niv + 1)) ++ resto)
          (insert u vis) (acc ++ [u])
termination_by (((Finset.range (cotaCI g) ∪ nodosLista lista) \ vis).card, lista.length)
decreasing_by
  · rcases lt_or_eq_of_le (medidaRec_salta (cotaCI g) (nodo, nivel) resto vis) with h2 | h2
    · exact Prod.Lex.left _ _ h2
    · rw [h2]
      apply Prod.Lex.right
      simp
  · apply Prod.Lex.left
    apply medidaRec_visita (cotaCI g) (nodo, nivel) resto vis hu
    intro x hx
    exact Finset.mem_union_right _ hx
  · apply Prod.Lex.left
    apply medidaRec_visita (cotaCI g) (nodo, nivel) resto vis hu
    intro x hx
    simp only [nodosLista, List.map_append, List.map_map, List.toFinset_append,
      Finset.mem_union, List.mem_toFinset, List.mem_map, Function.comp] at hx
    rcases hx with ⟨v, hv, hx⟩ | hx
    · apply Finset.mem_union_left
      simp only [Finset.mem_range]
      have hxv : v = x := hx
      exact hxv ▸ vecinosCSR_lt_cota g nodo v hv
    · apply Finset.mem_union_right
      simpa [nodosLista, List.mem_toFinset] using hx

/-- The top level of the recursive DFS of claim C9, with the same
invalid-input handling as the iterative version. -/
def dfsRecursivo (g : GrafoDisperso) (origen : Int) (d : Nat) : List Nat :=
  if g.totalNodos = 0 ∨ origen < 0 ∨ g.totalNodos ≤ origen.toNat then []
  else (dfsRecAux g d [(origen.toNat, 0)] ∅ []).2

theorem dfsRecAux_append (g : GrafoDisperso) (d : Nat) :
    ∀ (A B : List (Nat × Nat)) (vis : Finset Nat) (acc : List Nat),
      dfsRecAux g d (A ++ B) vis acc
        = dfsRecAux g d B (dfsRecAux g d A vis acc).1 (dfsRecAux g d A vis acc).2 := by
  intro A B vis acc
  induction A, vis, acc using dfsRecAux.induct g d generalizing B with
  | case1 vis acc =>
    rw [show dfsRecAux g d [] vis acc = (vis, acc) from by rw [dfsRecAux]]
    simp
  | case2 vis acc u niv resto hu ih =>
    rw [List.cons_append, dfsRecAux, dif_pos hu, dfsRecAux, dif_pos hu]
    exact ih B
  | case3 vis acc u niv resto hu hniv ih =>
    rw [List.cons_append, dfsRecAux, dif_neg hu, if_pos hniv, dfsRecAux, dif_neg hu,
      if_pos hniv]
    exact ih B
  | case4 vis acc u niv resto hu hniv ih =>
    rw [List.cons_append, dfsRecAux, dif_neg hu, if_neg hniv, dfsRecAux, dif_neg hu,
      if_neg hniv]
    rw [show (vecinosCSR g u).map (fun v => (v, niv + 1)) ++ (resto ++ B)
        = ((vecinosCSR g u).map (fun v => (v, niv + 1)) ++ resto) ++ B from by
      rw [List.append_assoc]]
    exact ih B

theorem dfsRecAux_mono (g : GrafoDisperso) (d : Nat) :
    ∀ (lista : List (Nat × Nat)) (vis : Finset Nat) (acc : List Nat),
      vis ⊆ (dfsRecAux g d lista vis acc).1 := by
  intro lista vis acc
  induction lista, vis, acc using dfsRecAux.induct g d with
  | case1 vis acc =>
    rw [dfsRecAux]
  | case2 vis acc u niv resto hu ih =>
    rw [dfsRecAux, dif_pos hu]
    exact ih
  | case3 vis acc u niv resto hu hniv ih =>
    rw [dfsRecAux, dif_neg hu, if_pos hniv]
    exact subset_trans (Finset.subset_insert _ _) ih
  | case4 vis acc u niv resto hu hniv ih =>
    rw [dfsRecAux, dif_neg hu, if_neg hniv]
    exact subset_trans (Finset.subset_insert _ _) ih

theorem dfsRecAux_filtro (g : GrafoDisperso) (d : Nat) (vis : Finset Nat) :
    ∀ (pre : List (Nat × Nat)) (rest : List (Nat × Nat)) (vis' : Finset Nat)
      (acc : List Nat), vis ⊆ vis' →
      dfsRecAux g d (pre.filter (fun p => decide (p.1 ∉ vis)) ++ rest) vis' acc
        = dfsRecAux g d (pre ++ rest) vis' acc := by
  intro pre
  induction pre with
  | nil => intro rest vis' acc _; rfl
  | cons p pr ih =>
    intro rest vis' acc hsub
    rcases p with ⟨u, niv⟩
    by_cases hp : u ∈ vis
    · rw [show (((u, niv) :: pr).filter (fun p => decide (p.1 ∉ vis)))
          = pr.filter (fun p => decide (p.1 ∉ vis)) from by simp [List.filter_cons, hp]]
      rw [List.cons_append, dfsRecAux, dif_pos (hsub hp)]
      exact ih rest vis' acc hsub
    · rw [show (((u, niv) :: pr).filter (fun p => decide (p.1 ∉ vis)))
          = (u, niv) :: pr.filter (fun p => decide (p.1 ∉ vis)) from by
        simp [List.filter_cons, hp]]
      rw [List.cons_append, List.cons_append]
      by_cases hv' : u ∈ vis'
      · rw [dfsRecAux, dif_pos hv', dfsRecAux, dif_pos hv']
        exact ih rest vis' acc hsub
      · by_cases hniv : d ≤ niv
        · rw [dfsRecAux, dif_neg hv', if_pos hniv, dfsRecAux, dif_neg hv', if_pos hniv]
          exact ih rest (insert u vis') (acc ++ [u])
            (subset_trans hsub (Finset.subset_insert _ _))
        · rw [dfsRecAux, dif_neg hv', if_neg hniv, dfsRecAux, dif_neg hv', if_neg hniv]
          rw [dfsRecAux_append g d ((vecinosCSR g u).map (fun v => (v, niv + 1))),
            dfsRecAux_append g d ((vecinosCSR g u).map (fun v => (v, niv + 1)))]
          apply ih
          have hsub1 : vis ⊆ insert u vis' := subset_trans hsub (Finset.subset_insert _ _)
          exact subset_trans hsub1 (dfsRecAux_mono g d _ _ _)

theorem apilarHijos_proyeccion (g : GrafoDisperso) (nodo nivel : Nat)
    (vis : Finset Nat) (pila : List Frame) :
    (apilarHijos g nodo nivel vis pila).map (fun f => (f.nodo, f.nivel))
      = ((vecinosCSR g nodo).map (fun v => (v, nivel + 1))).filter
          (fun p => decide (p.1 ∉ vis))
        ++ pila.map (fun f => (f.nodo, f.nivel)) := by
  rw [apilarHijos_eq, List.map_append, List.map_map]
  congr 1
  induction vecinosCSR g nodo with
  | nil => rfl
  | cons v vs ih =>
    by_cases hv : v ∈ vis
    · rw [show List.filter (fun v => decide (v ∉ vis)) (v :: vs)
          = List.filter (fun v => decide (v ∉ vis)) vs from by
        simp [List.filter_cons, hv]]
      rw [List.map_cons]
      rw [show List.filter (fun p => decide (p.1 ∉ vis))
            ((v, nivel + 1) :: List.map (fun v => (v, nivel + 1)) vs)
          = List.filter (fun p => decide (p.1 ∉ vis))
              (List.map (fun v => (v, nivel + 1)) vs) from by
        simp [List.filter_cons, hv]]
      exact ih
    · rw [show List.filter (fun v => decide (v ∉ vis)) (v :: vs)
          = v :: List.filter (fun v => decide (v ∉ vis)) vs from by
        simp [List.filter_cons, hv]]
      rw [List.map_cons, List.map_cons]
      rw [show List.filter (fun p => decide (p.1 ∉ vis))
            ((v, nivel + 1) :: List.map (fun v => (v, nivel + 1)) vs)
          = (v, nivel + 1) :: List.filter (fun p => decide (p.1 ∉ vis))
              (List.map (fun v => (v, nivel + 1)) vs) from by
        simp [List.filter_cons, hv]]
      rw [ih]
      rfl

theorem dfsLoop_igual_dfsRecAux (g : GrafoDisperso) (d : Nat) :
    ∀ (pila : List Frame) (vis : Finset Nat) (res : BFSResultado),
      (dfsLoop g d pila vis res).1
          = (dfsRecAux g d (pila.map (fun f => (f.nodo, f.nivel))) vis res.nodos).1 ∧
        (dfsLoop g d pila vis res).2.nodos
          = (dfsRecAux g d (pila.map (fun f => (f.nodo, f.nivel))) vis res.nodos).2 := by
  intro pila vis res
  induction pila, vis, res using dfsLoop.induct g d with
  | case1 vis res =>
    rw [dfsLoop]
    simp only [List.map_nil]
    rw [dfsRecAux]
    exact ⟨rfl, rfl⟩
  | case2 vis res f resto hv ih =>
    rw [dfsLoop, dif_pos hv, List.map_cons, dfsRecAux, dif_pos hv]
    exact ih
  | case3 vis res f resto hv vis1 res0 res1 hniv ih =>
    have hnodos : res1.nodos = res.nodos ++ [f.nodo] := by
      simp only [res1, res0]
      split <;> rfl
    have hgoal : (if f.padre ≠ -1 then
          { nodos := res.nodos ++ [f.nodo],
            aristas_origen := res.aristas_origen ++ [f.padre.toNat],
            aristas_destino := res.aristas_destino ++ [f.nodo] }
        else
          { nodos := res.nodos ++ [f.nodo], aristas_origen := res.aristas_origen,
            aristas_destino := res.aristas_destino }) = res1 := by
      by_cases hp : f.padre ≠ -1
      · rw [if_pos hp]
        simp only [res1, res0]
        rw [dif_pos hp]
      · rw [if_neg hp]
        simp only [res1, res0]
        rw [dif_neg hp]
    unfold vis1 at ih
    rw [hnodos] at ih
    rw [dfsLoop, dif_neg hv]
    simp only [if_pos hniv]
    rw [hgoal]
    rw [List.map_cons, dfsRecAux, dif_neg hv]
    simp only [if_pos hniv]
    exact ih
  | case4 vis res f resto hv vis1 res0 res1 hniv ih =>
    have hnodos : res1.nodos = res.nodos ++ [f.nodo] := by
      simp only [res1, res0]
      split <;> rfl
    have hgoal : (if f.padre ≠ -1 then
          { nodos := res.nodos ++ [f.nodo],
            aristas_origen := res.aristas_origen ++ [f.padre.toNat],
            aristas_destino := res.aristas_destino ++ [f.nodo] }
        else
          { nodos := res.nodos ++ [f.nodo], aristas_origen := res.aristas_origen,
            aristas_destino := res.aristas_destino }) = res1 := by
      by_cases hp : f.padre ≠ -1
      · rw [if_pos hp]
        simp only [res1, res0]
        rw [dif_pos hp]
      · rw [if_neg hp]
        simp only [res1, res0]
        rw [dif_neg hp]
    unfold vis1 at ih
    rw [hnodos] at ih
    rw [dfsLoop, dif_neg hv]
    simp only [if_neg hniv]
    rw [hgoal]
    rw [List.map_cons, dfsRecAux, dif_neg hv]
    simp only [if_neg hniv]
    rcases ih with ⟨ih1, ih2⟩
    rw [apilarHijos_proyeccion] at ih1 ih2
    rw [dfsRecAux_filtro g d (insert f.nodo vis) _ _ _ _ (subset_refl _)] at ih1 ih2
    exact ⟨ih1, ih2⟩

/-- C9: for every graph, source and depth bound, the iterative DFS (which
pushes the unvisited neighbors of an expanded frame in reverse neighbor
order and lazily discards frames whose node is already visited) produces
exactly the same visited-node order as the naive bounded recursive DFS
that visits each node's neighbors from left to right. -/
theorem dfs_iterativo_igual_recursivo (g : GrafoDisperso) (origen : Int) (d : Nat) :
    (dfsConDetalle g origen d).nodos = dfsRecursivo g origen d := by
  by_cases hg : g.totalNodos = 0 ∨ origen < 0 ∨ g.totalNodos ≤ origen.toNat
  · rw [dfsConDetalle, if_pos hg, dfsRecursivo, if_pos hg]
  · rw [dfsConDetalle, if_neg hg, dfsRecursivo, if_neg hg]
    exact (dfsLoop_igual_dfsRecAux g d
      [{ nodo := origen.toNat, nivel := 0, padre := -1 }] ∅
      { nodos := [], aristas_origen := [], aristas_destino := [] }).2

/-! ## Lemmas about the CSR build: degree counting and prefix sums -/

theorem getD_set_mismo (l : List Nat) (i : Nat) (a : Nat) (h : i < l.length) :
    (l.set i a).getD i 0 = a := by
  simp [List.getD_eq_getElem?_getD, List.getElem?_set_self h]

theorem getD_set_otro (l : List Nat) (i j a : Nat) (h : i ≠ j) :
    (l.set i a).getD j 0 = l.getD j 0 := by
  simp [List.getD_eq_getElem?_getD, List.getElem?_set_ne h]

theorem getD_lt_eq (l : List Nat) (i : Nat) (h : i < l.length) :
    l.getD i 0 = l[i] := by
  simp [List.getD_eq_getElem?_getD, List.getElem?_eq_getElem h]

theorem contarGrados_aux_length :
    ∀ (es : List (Nat × Nat)) (g0 : List Nat),
      (es.foldl (fun g e => g.set e.1 (g.getD e.1 0 + 1)) g0).length = g0.length := by
  intro es
  induction es with
  | nil => intro g0; rfl
  | cons e es ih =>
    intro g0
    rw [List.foldl_cons, ih, List.length_set]

theorem contarGrados_aux_getD (u : Nat) :
    ∀ (es : List (Nat × Nat)) (g0 : List Nat), (∀ e ∈ es, e.1 < g0.length) →
      (es.foldl (fun g e => g.set e.1 (g.getD e.1 0 + 1)) g0).getD u 0
        = g0.getD u 0 + es.countP (fun e => e.1 == u) := by
  intro es
  induction es with
  | nil => intro g0 _; simp
  | cons e es ih =>
    intro g0 hb
    rw [List.foldl_cons, List.countP_cons,
      ih _ (by
        intro x hx
        rw [List.length_set]
        exact hb x (List.mem_cons_of_mem _ hx))]
    by_cases heq : e.1 = u
    · rw [heq, getD_set_mismo _ _ _ (heq ▸ hb e (List.mem_cons_self _ _))]
      simp [heq]
      omega
    · rw [getD_set_otro _ _ _ _ heq]
      simp [heq]

theorem contarGrados_length (n : Nat) (es : List (Nat × Nat)) :
    (contarGrados n es).length = n := by
  rw [contarGrados, contarGrados_aux_length, List.length_replicate]

theorem contarGrados_getD (n : Nat) (es : List (Nat × Nat))
    (hb : ∀ e ∈ es, e.1 < n) (u : Nat) :
    (contarGrados n es).getD u 0 = es.countP (fun e => e.1 == u) := by
  rw [contarGrados, contarGrados_aux_getD u es _ (by
    intro e he
    rw [List.length_replicate]
    exact hb e he)]
  simp

theorem suma_set_incremento :
    ∀ (l : List Nat) (i : Nat), i < l.length →
      (l.set i (l.getD i 0 + 1)).sum = l.sum + 1 := by
  intro l
  induction l with
  | nil => intro i hi; simp at hi
  | cons a l ih =>
    intro i hi
    cases i with
    | zero => simp [List.getD_cons_zero]; omega
    | succ j =>
      simp only [List.set_cons_succ, List.sum_cons, List.getD_cons_succ]
      rw [ih j (by simpa using hi)]
      omega

theorem contarGrados_sum (n : Nat) (es : List (Nat × Nat))
    (hb : ∀ e ∈ es, e.1 < n) : (contarGrados n es).sum = es.length := by
  rw [contarGrados]
  have haux : ∀ (es' : List (Nat × Nat)) (g0 : List Nat), (∀ e ∈ es', e.1 < g0.length) →
      (es'.foldl (fun g e => g.set e.1 (g.getD e.1 0 + 1)) g0).sum = g0.sum + es'.length := by
    intro es'
    induction es' with
    | nil => intro g0 _; simp
    | cons e es' ih =>
      intro g0 hb'
      rw [List.foldl_cons, ih _ (by
        intro x hx
        rw [List.length_set]
        exact hb' x (List.mem_cons_of_mem _ hx))]
      rw [suma_set_incremento _ _ (hb' e (List.mem_cons_self _ _))]
      simp only [List.length_cons]
      omega
  rw [haux es _ (by
    intro e he
    rw [List.length_replicate]
    exact hb e he)]
  simp

theorem take_sum_succ (l : List Nat) (i : Nat) (h : i < l.length) :
    (l.take (i + 1)).sum = (l.take i).sum + l.getD i 0 := by
  rw [List.take_succ, List.sum_append, List.getElem?_eq_getElem h]
  simp [List.getD_eq_getElem?_getD, List.getElem?_eq_getElem h]

theorem take_sum_mono (l : List Nat) (i j : Nat) (h : i ≤ j) :
    (l.take i).sum ≤ (l.take j).sum := by
  have : l.take j = l.take i ++ (l.drop i).take (j - i) := by
    rw [← List.take_add]
    congr 1
    omega
  rw [this, List.sum_append]
  omega

theorem calcularRowPtr_aux (n : Nat) (grados : List Nat) (hlen : grados.length = n) :
    ∀ k, k ≤ n →
      ((List.range k).foldl
          (fun rp i => rp.set (i + 1) (rp.getD i 0 + grados.getD i 0))
          (List.replicate (n + 1) 0)).length = n + 1 ∧
        ∀ i, i ≤ k →
          ((List.range k).foldl
              (fun rp i => rp.set (i + 1) (rp.getD i 0 + grados.getD i 0))
              (List.replicate (n + 1) 0)).getD i 0 = (grados.take i).sum := by
  intro k
  induction k with
  | zero =>
    intro _
    refine ⟨by simp, ?_⟩
    intro i hi
    have hi0 : i = 0 := by omega
    subst hi0
    simp
  | succ k ih =>
    intro hk
    rcases ih (by omega) with ⟨ihlen, ihget⟩
    rw [List.range_succ, List.foldl_append, List.foldl_cons, List.foldl_nil]
    constructor
    · rw [List.length_set, ihlen]
    · intro i hi
      by_cases hik : i = k + 1
      · subst hik
        rw [getD_set_mismo _ _ _ (by rw [ihlen]; omega)]
        rw [ihget k (by omega), take_sum_succ grados k (by omega)]
      · rw [getD_set_otro _ _ _ _ (by omega)]
        exact ihget i (by omega)

theorem calcularRowPtr_length (n : Nat) (grados : List Nat) (hlen : grados.length = n) :
    (calcularRowPtr n grados).length = n + 1 :=
  (calcularRowPtr_aux n grados hlen n le_rfl).1

theorem calcularRowPtr_getD (n : Nat) (grados : List Nat) (hlen : grados.length = n)
    (i : Nat) (hi : i ≤ n) :
    (calcularRowPtr n grados).getD i 0 = (grados.take i).sum :=
  (calcularRowPtr_aux n grados hlen n le_rfl).2 i hi

theorem bloque_menor (grados : List Nat) (u u' j : Nat) (hlt : u < u')
    (hj : j < grados.getD u 0) (hu : u < grados.length) :
    (grados.take u).sum + j < (grados.take u').sum := by
  have h1 := take_sum_succ grados u hu
  have h2 := take_sum_mono grados (u + 1) u' hlt
  omega

theorem llenar_aux (n : Nat) (rowPtr : List Nat) (L : List (Nat × Nat))
    (hb : ∀ e ∈ L, e.1 < n)
    (hrp : ∀ u, u ≤ n → rowPtr.getD u 0 = ((contarGrados n L).take u).sum) :
    ∀ (L₂ L₁ : List (Nat × Nat)), L₁ ++ L₂ = L →
      ∀ (ci off : List Nat), ci.length = L.length → off.length = n →
        (∀ u, u < n → off.getD u 0 = L₁.countP (fun e => e.1 == u)) →
        (∀ u, u < n → ∀ j, j < L₁.countP (fun e => e.1 == u) →
          ci.getD (((contarGrados n L).take u).sum + j) 0
            = ((L₁.filter (fun e => e.1 == u)).map Prod.snd).getD j 0) →
        ((L₂.foldl (fun s e =>
            (s.1.set (rowPtr.getD e.1 0 + s.2.getD e.1 0) e.2,
             s.2.set e.1 (s.2.getD e.1 0 + 1))) (ci, off)).1.length = L.length ∧
         ∀ u, u < n → ∀ j, j < L.countP (fun e => e.1 == u) →
           (L₂.foldl (fun s e =>
              (s.1.set (rowPtr.getD e.1 0 + s.2.getD e.1 0) e.2,
               s.2.set e.1 (s.2.getD e.1 0 + 1))) (ci, off)).1.getD
               (((contarGrados n L).take u).sum + j) 0
             = ((L.filter (fun e => e.1 == u)).map Prod.snd).getD j 0) := by
  intro L₂
  induction L₂ with
  | nil =>
    intro L₁ hL ci off hci hoff hcount hslice
    rw [List.append_nil] at hL
    subst hL
    exact ⟨hci, fun u hu j hj => hslice u hu j hj⟩
  | cons e L₂ ih =>
    intro L₁ hL ci off hci hoff hcount hslice
    rw [List.foldl_cons]
    dsimp only
    have he : e ∈ L := by
      rw [← hL]
      exact List.mem_append_right _ (List.mem_cons_self _ _)
    have hu0 : e.1 < n := hb e he
    have hglen : (contarGrados n L).length = n := contarGrados_length n L
    have hoffval : off.getD e.1 0 = L₁.countP (fun x => x.1 == e.1) := hcount e.1 hu0
    have hrpval : rowPtr.getD e.1 0 = ((contarGrados n L).take e.1).sum :=
      hrp e.1 (le_of_lt hu0)
    have hcountL : L.countP (fun x => x.1 == e.1)
        = L₁.countP (fun x => x.1 == e.1) + (e :: L₂).countP (fun x => x.1 == e.1) := by
      rw [← hL, List.countP_append]
    have hcpos : (e :: L₂).countP (fun x => x.1 == e.1) ≥ 1 := by
      rw [List.countP_cons]
      simp
    have hclt : L₁.countP (fun x => x.1 == e.1) < (contarGrados n L).getD e.1 0 := by
      rw [contarGrados_getD n L hb e.1]
      omega
    have hsum : (contarGrados n L).sum = L.length := contarGrados_sum n L hb
    have hposlt : ((contarGrados n L).take e.1).sum + L₁.countP (fun x => x.1 == e.1)
        < L.length := by
      have hb1 := bloque_menor (contarGrados n L) e.1 n
        (L₁.countP (fun x => x.1 == e.1)) (by omega) hclt (by omega)
      rw [show ((contarGrados n L).take n).sum = (contarGrados n L).sum from by
        rw [List.take_of_length_le (le_of_eq hglen)], hsum] at hb1
      exact hb1
    have hprefix_le : ∀ u, L₁.countP (fun x => x.1 == u) ≤ L.countP (fun x => x.1 == u) := by
      intro u
      rw [← hL, List.countP_append]
      omega
    refine ih (L₁ ++ [e]) (by rw [← hL, List.append_assoc]; rfl)
      (ci.set (rowPtr.getD e.1 0 + off.getD e.1 0) e.2)
      (off.set e.1 (off.getD e.1 0 + 1))
      (by rw [List.length_set, hci]) (by rw [List.length_set, hoff]) ?_ ?_
    · intro u hu
      by_cases heq : e.1 = u
      · subst heq
        rw [getD_set_mismo _ _ _ (by rw [hoff]; exact hu0), hoffval, List.countP_append]
        simp
      · rw [getD_set_otro _ _ _ _ heq, List.countP_append, hcount u hu]
        have he0 : (e.1 == u) = false := by simp [heq]
        simp [List.countP_cons, he0]
    · intro u hu j hj
      rw [List.countP_append] at hj
      by_cases heq : e.1 = u
      · subst heq
        have hfiltro : (L₁ ++ [e]).filter (fun x => x.1 == e.1)
            = L₁.filter (fun x => x.1 == e.1) ++ [e] := by
          rw [List.filter_append]
          simp
        rw [hfiltro, List.map_append]
        simp only [List.map_cons, List.map_nil]
        have hlenfiltro : ((L₁.filter (fun x => x.1 == e.1)).map Prod.snd).length
            = L₁.countP (fun x => x.1 == e.1) := by
          rw [List.length_map, ← List.countP_eq_length_filter]
        have hje : j < L₁.countP (fun x => x.1 == e.1) + 1 := by
          simp only [List.countP_cons, List.countP_nil] at hj
          simp at hj
          omega
        by_cases hjc : j < L₁.countP (fun x => x.1 == e.1)
        · rw [getD_set_otro _ _ _ _ (by rw [hrpval, hoffval]; omega)]
          rw [hslice e.1 hu0 j hjc]
          rw [getD_append_izq _ _ _ (by rw [hlenfiltro]; exact hjc)]
        · have hjeq : j = L₁.countP (fun x => x.1 == e.1) := by omega
          subst hjeq
          rw [hrpval, hoffval]
          rw [getD_set_mismo _ _ _ (by rw [hci]; exact hposlt)]
          rw [← hlenfiltro, getD_append_fin]
      · have he0 : (e.1 == u) = false := by simp [heq]
        have hfiltro : (L₁ ++ [e]).filter (fun x => x.1 == u)
            = L₁.filter (fun x => x.1 == u) := by
          rw [List.filter_append]
          simp [he0]
        have hjlt : j < L₁.countP (fun x => x.1 == u) := by
          simp only [List.countP_cons, List.countP_nil, he0] at hj
          simpa using hj
        have hjgrados : j < (contarGrados n L).getD u 0 := by
          rw [contarGrados_getD n L hb u]
          exact lt_of_lt_of_le hjlt (hprefix_le u)
        have hnepos : ((contarGrados n L).take e.1).sum + off.getD e.1 0
            ≠ ((contarGrados n L).take u).sum + j := by
          rw [hoffval]
          rcases Nat.lt_or_ge e.1 u with ho | ho
          · have := bloque_menor (contarGrados n L) e.1 u
              (L₁.countP (fun x => x.1 == e.1)) ho hclt (by omega)
            omega
          · have hne2 : u < e.1 := by omega
            have := bloque_menor (contarGrados n L) u e.1 j hne2 hjgrados (by omega)
            omega
        rw [hfiltro]
        rw [getD_set_otro _ _ _ _ (by rw [hrpval]; exact hnepos)]
        exact hslice u hu j hjlt

theorem maxIdDe_init_le : ∀ (es : List (Nat × Nat)) (m : Int),
    m ≤ es.foldl (fun m e => max (max m (e.1 : Int)) (e.2 : Int)) m := by
  intro es
  induction es with
  | nil => intro m; simp
  | cons e es ih =>
    intro m
    refine le_trans ?_ (ih _)
    exact le_trans (le_max_left _ _) (le_max_left _ _)

theorem maxIdDe_fold_cota : ∀ (es : List (Nat × Nat)) (m : Int) (e : Nat × Nat), e ∈ es →
    (e.1 : Int) ≤ es.foldl (fun m e => max (max m (e.1 : Int)) (e.2 : Int)) m ∧
    (e.2 : Int) ≤ es.foldl (fun m e => max (max m (e.1 : Int)) (e.2 : Int)) m := by
  intro es
  induction es with
  | nil => intro m e he; cases he
  | cons x es ih =>
    intro m e he
    rcases List.mem_cons.mp he with rfl | he
    · constructor
      · refine le_trans ?_ (maxIdDe_init_le es _)
        simp only [List.foldl_cons]
        exact le_trans (le_max_right _ _) (le_max_left _ _)
      · refine le_trans ?_ (maxIdDe_init_le es _)
        simp only [List.foldl_cons]
        exact le_max_right _ _
    · exact ih _ e he

theorem maxIdDe_cota (es : List (Nat × Nat)) (e : Nat × Nat) (he : e ∈ es) :
    (e.1 : Int) ≤ maxIdDe es ∧ (e.2 : Int) ≤ maxIdDe es :=
  maxIdDe_fold_cota es (-1) e he

/-- Inversion of a successful load: the resulting state is exactly the CSR
structure built from the accepted edges. -/
theorem cargar_exitoso_inv (g₀ : GrafoDisperso) (lineas : List (List Char)) (t : Nat)
    (g : GrafoDisperso) (h : cargarDatos g₀ (some lineas) t = (true, g)) :
    g.totalNodos = (maxIdDe (lineas.filterMap procesarLinea)).toNat + 1 ∧
    g.totalAristas = (lineas.filterMap procesarLinea).length ∧
    g.grados = contarGrados g.totalNodos (lineas.filterMap procesarLinea) ∧
    g.rowPtr = calcularRowPtr g.totalNodos g.grados ∧
    g.colIndices = (llenarColumnas g.rowPtr g.totalAristas g.totalNodos
      (lineas.filterMap procesarLinea)).1 := by
  by_cases hm : maxIdDe (lineas.filterMap procesarLinea) < 0
  · simp only [cargarDatos] at h
    rw [if_pos hm] at h
    simp at h
  · simp only [cargarDatos] at h
    rw [if_neg hm] at h
    have hg := congrArg Prod.snd h
    simp only at hg
    subst hg
    exact ⟨rfl, rfl, rfl, rfl, rfl⟩

theorem aristas_cota (g₀ : GrafoDisperso) (lineas : List (List Char)) (t : Nat)
    (g : GrafoDisperso) (h : cargarDatos g₀ (some lineas) t = (true, g)) :
    ∀ e ∈ lineas.filterMap procesarLinea, e.1 < g.totalNodos ∧ e.2 < g.totalNodos := by
  obtain ⟨hN, -, -, -, -⟩ := cargar_exitoso_inv g₀ lineas t g h
  intro e he
  obtain ⟨h1, h2⟩ := maxIdDe_cota _ e he
  rw [hN]
  omega

/-! ## Claim C8: structural invariants of rowOffsets -/

/-- C8: after any successful build, `rowPtr` has length `totalNodos + 1`,
its first entry is 0, its last entry equals `totalAristas`, and it is
monotonically non-decreasing.  The embedding is purely functional and no
operation of the class mutates a built graph, so these relationships also
never change afterwards. -/
theorem rowptr_invariantes (g₀ : GrafoDisperso) (lineas : List (List Char)) (t : Nat)
    (g : GrafoDisperso) (h : cargarDatos g₀ (some lineas) t = (true, g)) :
    g.rowPtr.length = g.totalNodos + 1 ∧
    g.rowPtr.getD 0 0 = 0 ∧
    g.rowPtr.getD g.totalNodos 0 = g.totalAristas ∧
    ∀ i j, i ≤ j → j ≤ g.totalNodos → g.rowPtr.getD i 0 ≤ g.rowPtr.getD j 0 := by
  obtain ⟨hN, hA, hG, hR, -⟩ := cargar_exitoso_inv g₀ lineas t g h
  have hbound : ∀ e ∈ lineas.filterMap procesarLinea, e.1 < g.totalNodos :=
    fun e he => (aristas_cota g₀ lineas t g h e he).1
  have hglen : g.grados.length = g.totalNodos := by
    rw [hG, contarGrados_length]
  refine ⟨?_, ?_, ?_, ?_⟩
  · rw [hR, calcularRowPtr_length _ _ hglen]
  · rw [hR, calcularRowPtr_getD _ _ hglen 0 (by omega)]
    simp
  · rw [hR, calcularRowPtr_getD _ _ hglen _ le_rfl,
      List.take_of_length_le (le_of_eq hglen), hG,
      contarGrados_sum _ _ hbound, hA]
  · intro i j hij hj
    rw [hR, calcularRowPtr_getD _ _ hglen i (by omega),
      calcularRowPtr_getD _ _ hglen j hj]
    exact take_sum_mono _ _ _ hij

theorem rowptr_invariantes_testigo :
    (gEjemplo.rowPtr.length = gEjemplo.totalNodos + 1 ∧
      gEjemplo.rowPtr.getD 0 0 = 0 ∧
      gEjemplo.rowPtr.getD gEjemplo.totalNodos 0 = gEjemplo.totalAristas ∧
      ∀ i j, i ≤ j → j ≤ gEjemplo.totalNodos →
        gEjemplo.rowPtr.getD i 0 ≤ gEjemplo.rowPtr.getD j 0) :=
  rowptr_invariantes GrafoDisperso.nuevo lineasEjemplo 7 gEjemplo cargar_lineasEjemplo

/-! ## Claim C4: stable CSR fill -/

theorem vecinos_caracterizados (g₀ : GrafoDisperso) (lineas : List (List Char)) (t : Nat)
    (g : GrafoDisperso) (h : cargarDatos g₀ (some lineas) t = (true, g)) (u : Nat) :
    obtenerVecinos g (u : Int)
      = ((lineas.filterMap procesarLinea).filter (fun e => e.1 == u)).map Prod.snd := by
  obtain ⟨hN, hA, hG, hR, hC⟩ := cargar_exitoso_inv g₀ lineas t g h
  have hbound : ∀ e ∈ lineas.filterMap procesarLinea, e.1 < g.totalNodos :=
    fun e he => (aristas_cota g₀ lineas t g h e he).1
  have hglen : g.grados.length = g.totalNodos := by
    rw [hG, contarGrados_length]
  have hrp : ∀ v, v ≤ g.totalNodos → g.rowPtr.getD v 0
      = ((contarGrados g.totalNodos (lineas.filterMap procesarLinea)).take v).sum := by
    intro v hv
    rw [hR, calcularRowPtr_getD _ _ hglen v hv, hG]
  have hsum : (contarGrados g.totalNodos (lineas.filterMap procesarLinea)).sum
      = (lineas.filterMap procesarLinea).length := contarGrados_sum _ _ hbound
  have hcglen : (contarGrados g.totalNodos (lineas.filterMap procesarLinea)).length
      = g.totalNodos := contarGrados_length _ _
  by_cases hu : u < g.totalNodos
  · have hllenar := llenar_aux g.totalNodos g.rowPtr (lineas.filterMap procesarLinea)
      hbound hrp (lineas.filterMap procesarLinea) [] rfl
      (List.replicate (lineas.filterMap procesarLinea).length 0)
      (List.replicate g.totalNodos 0)
      (by simp) (by simp)
      (by intro v hv; simp)
      (by intro v hv j hj; simp at hj)
    have hci : g.colIndices = ((lineas.filterMap procesarLinea).foldl
        (fun s e => (s.1.set (g.rowPtr.getD e.1 0 + s.2.getD e.1 0) e.2,
          s.2.set e.1 (s.2.getD e.1 0 + 1)))
        (List.replicate (lineas.filterMap procesarLinea).length 0,
         List.replicate g.totalNodos 0)).1 := by
      rw [hC, llenarColumnas, hA]
    have hcilen : g.colIndices.length = (lineas.filterMap procesarLinea).length := by
      rw [hci]
      exact hllenar.1
    have hpref1 : ((contarGrados g.totalNodos (lineas.filterMap procesarLinea)).take
          (u + 1)).sum
        = ((contarGrados g.totalNodos (lineas.filterMap procesarLinea)).take u).sum
          + (lineas.filterMap procesarLinea).countP (fun e => e.1 == u) := by
      rw [take_sum_succ _ _ (by omega), contarGrados_getD _ _ hbound u]
    have hpreffin : ((contarGrados g.totalNodos (lineas.filterMap procesarLinea)).take
          (u + 1)).sum ≤ (lineas.filterMap procesarLinea).length := by
      rw [← hsum]
      have := take_sum_mono (contarGrados g.totalNodos (lineas.filterMap procesarLinea))
        (u + 1) g.totalNodos (by omega)
      rw [List.take_of_length_le (le_of_eq hcglen)] at this
      exact this
    have hguard : ¬((u : Int) < 0 ∨ g.totalNodos ≤ (u : Int).toNat) := by
      push_neg
      constructor
      · omega
      · simpa using hu
    rw [obtenerVecinos, if_neg hguard]
    have htonat : ((u : Int)).toNat = u := by simp
    rw [vecinosCSR, htonat]
    rw [hrp u (by omega), hrp (u + 1) (by omega)]
    apply List.ext_getElem
    · rw [List.length_take, List.length_drop, hcilen, hpref1]
      rw [List.length_map, ← List.countP_eq_length_filter]
      omega
    · intro j hj1 hj2
      rw [List.length_take, List.length_drop] at hj1
      have hjlt : j < (lineas.filterMap procesarLinea).countP (fun e => e.1 == u) := by
        rw [List.length_map, ← List.countP_eq_length_filter] at hj2
        exact hj2
      rw [List.getElem_take, List.getElem_drop]
      have hidx : ((contarGrados g.totalNodos (lineas.filterMap procesarLinea)).take
          u).sum + j < g.colIndices.length := by
        rw [hcilen]
        omega
      rw [← getD_lt_eq _ _ hidx, ← getD_lt_eq _ _ (by
        rw [List.length_map, ← List.countP_eq_length_filter]
        exact hjlt)]
      rw [hci]
      exact hllenar.2 u hu j hjlt
  · have hguard : ((u : Int) < 0 ∨ g.totalNodos ≤ (u : Int).toNat) := by
      right
      simpa using le_of_not_lt hu
    rw [obtenerVecinos, if_pos hguard]
    have : (lineas.filterMap procesarLinea).filter (fun e => e.1 == u) = [] := by
      rw [List.filter_eq_nil_iff]
      intro e he
      have := hbound e he
      simp only [beq_iff_eq]
      omega
    rw [this]
    rfl

/-- C4: after a successful build, every accepted edge `(u, v)` has `v` in
`obtenerVecinos u`, and for every node `u` the neighbor list equals the
destinations of the accepted edges with origin `u`, in exactly their input
order (stable fill). -/
theorem vecinos_estables (g₀ : GrafoDisperso) (lineas : List (List Char)) (t : Nat)
    (g : GrafoDisperso) (h : cargarDatos g₀ (some lineas) t = (true, g)) :
    (∀ e ∈ lineas.filterMap procesarLinea, e.2 ∈ obtenerVecinos g (e.1 : Int)) ∧
    ∀ u : Nat, obtenerVecinos g (u : Int)
      = ((lineas.filterMap procesarLinea).filter (fun e => e.1 == u)).map Prod.snd := by
  constructor
  · intro e he
    rw [vecinos_caracterizados g₀ lineas t g h e.1]
    exact List.mem_map.mpr ⟨e, List.mem_filter.mpr ⟨he, by simp⟩, rfl⟩
  · exact vecinos_caracterizados g₀ lineas t g h

theorem vecinos_estables_testigo :
    ((0, 1) ∈ lineasEjemplo.filterMap procesarLinea →
      ((0, 1) : Nat × Nat).2 ∈ obtenerVecinos gEjemplo (((0, 1) : Nat × Nat).1 : Int)) ∧
    obtenerVecinos gEjemplo ((0 : Nat) : Int)
      = ((lineasEjemplo.filterMap procesarLinea).filter (fun e => e.1 == 0)).map Prod.snd :=
  ⟨fun hm => (vecinos_estables GrafoDisperso.nuevo lineasEjemplo 7 gEjemplo
      cargar_lineasEjemplo).1 (0, 1) hm,
   (vecinos_estables GrafoDisperso.nuevo lineasEjemplo 7 gEjemplo
      cargar_lineasEjemplo).2 0⟩

/-! ## Claim C1: BFS visits exactly the nodes within the depth bound -/

/-- Bounded reachability: `AlcanzableEn g s v n` says there is a directed
path of length `n` from `s` to `v` along CSR neighbor slices; the hop
distance of `v` from `s` is at most `d` exactly when `AlcanzableEn g s v n`
holds for some `n ≤ d`. -/
inductive AlcanzableEn (g : GrafoDisperso) (s : Nat) : Nat → Nat → Prop
  | base : AlcanzableEn g s s 0
  | paso {u v n : Nat} : AlcanzableEn g s u n → v ∈ vecinosCSR g u →
      AlcanzableEn g s v (n + 1)

/-- Out-neighborhood of a node set. -/
def vecindario (g : GrafoDisperso) (S : Finset Nat) : Finset Nat :=
  S.biUnion (fun u => (vecinosCSR g u).toFinset)

/-- The set of nodes at hop distance at most `k` from `s`. -/
def alcanzaHasta (g : GrafoDisperso) (s : Nat) : Nat → Finset Nat
  | 0 => {s}
  | k + 1 => alcanzaHasta g s k ∪ vecindario g (alcanzaHasta g s k)

theorem alcanzaHasta_mono_paso (g : GrafoDisperso) (s k : Nat) :
    alcanzaHasta g s k ⊆ alcanzaHasta g s (k + 1) := by
  rw [show alcanzaHasta g s (k + 1)
      = alcanzaHasta g s k ∪ vecindario g (alcanzaHasta g s k) from rfl]
  exact Finset.subset_union_left

theorem alcanzaHasta_mono (g : GrafoDisperso) (s : Nat) :
    ∀ (m k : Nat), m ≤ k → alcanzaHasta g s m ⊆ alcanzaHasta g s k := by
  intro m k
  induction k with
  | zero =>
    intro h
    have hm : m = 0 := by omega
    subst hm
    exact subset_refl _
  | succ k ih =>
    intro h
    rcases Nat.lt_or_ge m (k + 1) with h1 | h2
    · exact subset_trans (ih (by omega)) (alcanzaHasta_mono_paso g s k)
    · have hm : m = k + 1 := by omega
      subst hm
      exact subset_refl _

theorem alcanzaHasta_de_paso (g : GrafoDisperso) (s v n : Nat)
    (h : AlcanzableEn g s v n) : v ∈ alcanzaHasta g s n := by
  induction h with
  | base => simp [alcanzaHasta]
  | paso hu hv ih =>
    rename_i u w m
    rw [show alcanzaHasta g s (m + 1)
        = alcanzaHasta g s m ∪ vecindario g (alcanzaHasta g s m) from rfl]
    apply Finset.mem_union_right
    rw [vecindario, Finset.mem_biUnion]
    exact ⟨u, ih, List.mem_toFinset.mpr hv⟩

theorem alcanzaHasta_iff (g : GrafoDisperso) (s : Nat) :
    ∀ (d : Nat) (v : Nat), v ∈ alcanzaHasta g s d ↔ ∃ n ≤ d, AlcanzableEn g s v n := by
  intro d
  induction d with
  | zero =>
    intro v
    constructor
    · intro hv
      rw [show alcanzaHasta g s 0 = {s} from rfl, Finset.mem_singleton] at hv
      subst hv
      exact ⟨0, le_rfl, AlcanzableEn.base⟩
    · rintro ⟨n, hn, hr⟩
      have hn0 : n = 0 := by omega
      subst hn0
      cases hr
      simp [alcanzaHasta]
  | succ k ih =>
    intro v
    constructor
    · intro hv
      rw [show alcanzaHasta g s (k + 1)
          = alcanzaHasta g s k ∪ vecindario g (alcanzaHasta g s k) from rfl,
        Finset.mem_union] at hv
      rcases hv with hv | hv
      · obtain ⟨n, hn, hr⟩ := (ih v).mp hv
        exact ⟨n, by omega, hr⟩
      · rw [vecindario, Finset.mem_biUnion] at hv
        obtain ⟨u, hu, hvu⟩ := hv
        obtain ⟨n, hn, hr⟩ := (ih u).mp hu
        exact ⟨n + 1, by omega, AlcanzableEn.paso hr (List.mem_toFinset.mp hvu)⟩
    · rintro ⟨n, hn, hr⟩
      exact alcanzaHasta_mono g s n (k + 1) hn (alcanzaHasta_de_paso g s v n hr)

theorem bfsLoop_drena (g : GrafoDisperso) (d : Nat) :
    ∀ (cola : List (Nat × Nat)) (vis : Finset Nat) (res : BFSResultado),
      (∀ p ∈ cola, d ≤ p.2) → bfsLoop g d cola vis res = (vis, res) := by
  intro cola vis res
  induction cola, vis, res using bfsLoop.induct g d with
  | case1 vis res => intro _; rw [bfsLoop]
  | case2 vis res nodo nivel resto hniv ih =>
    intro hl
    rw [bfsLoop, if_pos hniv]
    exact ih (fun p hp => hl p (List.mem_cons_of_mem _ hp))
  | case3 vis res nodo nivel resto hniv st ih =>
    intro hl
    exact absurd (hl (nodo, nivel) (List.mem_cons_self _ _)) hniv

/-- Proof-side abbreviation: the BFS expansion applied to every entry of a
frontier in order, threading the traversal state. -/
def expandeFrente (g : GrafoDisperso)
    (st : Finset Nat × List (Nat × Nat) × BFSResultado) (f : List (Nat × Nat)) :
    Finset Nat × List (Nat × Nat) × BFSResultado :=
  f.foldl (fun st e => (vecinosCSR g e.1).foldl (pasoVecinoBFS e.1 e.2) st) st

theorem bfsLoop_frente (g : GrafoDisperso) (d ℓ : Nat) (hℓ : ℓ < d) :
    ∀ (f₁ f₂ : List (Nat × Nat)) (vis : Finset Nat) (res : BFSResultado),
      (∀ p ∈ f₁, p.2 = ℓ) →
      bfsLoop g d (f₁ ++ f₂) vis res
        = bfsLoop g d (expandeFrente g (vis, f₂, res) f₁).2.1
            (expandeFrente g (vis, f₂, res) f₁).1
            (expandeFrente g (vis, f₂, res) f₁).2.2 := by
  intro f₁
  induction f₁ with
  | nil =>
    intro f₂ vis res _
    rw [List.nil_append, expandeFrente, List.foldl_nil]
  | cons p f₁ ih =>
    intro f₂ vis res hniv
    rcases p with ⟨nodo, nivel⟩
    have hℓ2 : nivel = ℓ := hniv (nodo, nivel) (List.mem_cons_self _ _)
    subst hℓ2
    rw [List.cons_append, bfsLoop]
    rw [if_neg (by omega)]
    rw [pvb_fold_cola_shift nodo nivel (vecinosCSR g nodo) vis (f₁ ++ f₂) res]
    rw [expandeFrente, List.foldl_cons,
      pvb_fold_cola_shift nodo nivel (vecinosCSR g nodo) vis f₂ res]
    rw [show ((f₁ ++ f₂)
          ++ ((vecinosCSR g nodo).foldl (pasoVecinoBFS nodo nivel) (vis, [], res)).2.1)
        = f₁ ++ (f₂
          ++ ((vecinosCSR g nodo).foldl (pasoVecinoBFS nodo nivel) (vis, [], res)).2.1)
        from List.append_assoc _ _ _]
    exact ih _ _ _ (fun p hp => hniv p (List.mem_cons_of_mem _ hp))

theorem expandeFrente_vis (g : GrafoDisperso) :
    ∀ (f : List (Nat × Nat)) (vis : Finset Nat) (cola : List (Nat × Nat))
      (res : BFSResultado),
      (expandeFrente g (vis, cola, res) f).1 = vis ∪ vecindario g (nodosLista f) := by
  intro f
  induction f with
  | nil =>
    intro vis cola res
    rw [expandeFrente, List.foldl_nil]
    simp [vecindario, nodosLista]
  | cons e f ih =>
    intro vis cola res
    rw [expandeFrente, List.foldl_cons]
    have hpaso := pvb_fold_vis e.1 e.2 (vecinosCSR g e.1) vis cola res
    rw [show (vecinosCSR g e.1).foldl (pasoVecinoBFS e.1 e.2) (vis, cola, res)
        = (((vecinosCSR g e.1).foldl (pasoVecinoBFS e.1 e.2) (vis, cola, res)).1,
           ((vecinosCSR g e.1).foldl (pasoVecinoBFS e.1 e.2) (vis, cola, res)).2.1,
           ((vecinosCSR g e.1).foldl (pasoVecinoBFS e.1 e.2) (vis, cola, res)).2.2)
        from rfl]
    rw [show ∀ (a : Finset Nat) (b : List (Nat × Nat)) (c : BFSResultado),
        List.foldl (fun st e => (vecinosCSR g e.1).foldl (pasoVecinoBFS e.1 e.2) st)
          (a, b, c) f = expandeFrente g (a, b, c) f from fun a b c => rfl]
    rw [ih, hpaso]
    ext x
    simp only [Finset.mem_union, vecindario, nodosLista, List.map_cons,
      List.toFinset_cons, Finset.mem_biUnion, Finset.mem_insert, List.mem_toFinset]
    constructor
    · rintro ((hx | hx) | ⟨u, hu, hxu⟩)
      · exact Or.inl hx
      · exact Or.inr ⟨e.1, Or.inl rfl, hx⟩
      · exact Or.inr ⟨u, Or.inr hu, hxu⟩
    · rintro (hx | ⟨u, hu | hu, hxu⟩)
      · exact Or.inl (Or.inl hx)
      · subst hu
        exact Or.inl (Or.inr hxu)
      · exact Or.inr ⟨u, hu, hxu⟩

theorem expandeFrente_nodos (g : GrafoDisperso) :
    ∀ (f : List (Nat × Nat)) (vis : Finset Nat) (cola : List (Nat × Nat))
      (res : BFSResultado),
      (∀ x, x ∈ res.nodos ↔ x ∈ vis) →
      ∀ x, x ∈ (expandeFrente g (vis, cola, res) f).2.2.nodos
        ↔ x ∈ (expandeFrente g (vis, cola, res) f).1 := by
  intro f
  induction f with
  | nil =>
    intro vis cola res h x
    rw [expandeFrente, List.foldl_nil]
    exact h x
  | cons e f ih =>
    intro vis cola res h x
    rw [expandeFrente, List.foldl_cons]
    have h1 := pvb_fold_nodos e.1 e.2 (vecinosCSR g e.1) vis cola res h
    exact ih _ _ _ h1 x

theorem expandeFrente_niveles (g : GrafoDisperso) (ℓ : Nat) :
    ∀ (f : List (Nat × Nat)) (vis : Finset Nat) (cola : List (Nat × Nat))
      (res : BFSResultado),
      (∀ p ∈ f, p.2 = ℓ) → (∀ p ∈ cola, p.2 = ℓ + 1) →
      ∀ p ∈ (expandeFrente g (vis, cola, res) f).2.1, p.2 = ℓ + 1 := by
  intro f
  induction f with
  | nil =>
    intro vis cola res _ hc
    rw [expandeFrente, List.foldl_nil]
    exact hc
  | cons e f ih =>
    intro vis cola res hf hc
    rw [expandeFrente, List.foldl_cons]
    refine ih _ _ _ (fun p hp => hf p (List.mem_cons_of_mem _ hp)) ?_
    intro p hp
    rcases pvb_fold_cola_mem e.1 e.2 (vecinosCSR g e.1) vis cola res p hp with
      hmem | ⟨hlev, -, -⟩
    · exact hc p hmem
    · rw [hlev, hf e (List.mem_cons_self _ _)]

theorem expandeFrente_nuevos (g : GrafoDisperso) :
    ∀ (f : List (Nat × Nat)) (vis : Finset Nat) (cola : List (Nat × Nat))
      (res : BFSResultado),
      nodosLista (expandeFrente g (vis, cola, res) f).2.1
        = nodosLista cola ∪ ((expandeFrente g (vis, cola, res) f).1 \ vis) := by
  intro f
  induction f with
  | nil =>
    intro vis cola res
    rw [expandeFrente, List.foldl_nil]
    simp
  | cons e f ih =>
    intro vis cola res
    rw [expandeFrente, List.foldl_cons]
    have hvis1 := pvb_fold_vis e.1 e.2 (vecinosCSR g e.1) vis cola res
    have hcola1 := pvb_fold_nuevos_set e.1 e.2 (vecinosCSR g e.1) vis cola res
    have hEvis := expandeFrente_vis g f
      ((vecinosCSR g e.1).foldl (pasoVecinoBFS e.1 e.2) (vis, cola, res)).1
      ((vecinosCSR g e.1).foldl (pasoVecinoBFS e.1 e.2) (vis, cola, res)).2.1
      ((vecinosCSR g e.1).foldl (pasoVecinoBFS e.1 e.2) (vis, cola, res)).2.2
    have hstep := ih ((vecinosCSR g e.1).foldl (pasoVecinoBFS e.1 e.2) (vis, cola, res)).1
      ((vecinosCSR g e.1).foldl (pasoVecinoBFS e.1 e.2) (vis, cola, res)).2.1
      ((vecinosCSR g e.1).foldl (pasoVecinoBFS e.1 e.2) (vis, cola, res)).2.2
    rw [show List.foldl (fun st e => (vecinosCSR g e.1).foldl (pasoVecinoBFS e.1 e.2) st)
          ((vecinosCSR g e.1).foldl (pasoVecinoBFS e.1 e.2) (vis, cola, res)) f
        = expandeFrente g
            (((vecinosCSR g e.1).foldl (pasoVecinoBFS e.1 e.2) (vis, cola, res)).1,
             ((vecinosCSR g e.1).foldl (pasoVecinoBFS e.1 e.2) (vis, cola, res)).2.1,
             ((vecinosCSR g e.1).foldl (pasoVecinoBFS e.1 e.2) (vis, cola, res)).2.2)
            f from rfl]
    rw [hstep]
    rw [show nodosLista ((vecinosCSR g e.1).foldl (pasoVecinoBFS e.1 e.2)
          (vis, cola, res)).2.1
        = nodosLista cola ∪ ((vecinosCSR g e.1).toFinset \ vis) from by
      rw [nodosLista, hcola1]
      rfl]
    have hE1sup : (vis ∪ (vecinosCSR g e.1).toFinset)
        ⊆ (expandeFrente g
            (((vecinosCSR g e.1).foldl (pasoVecinoBFS e.1 e.2) (vis, cola, res)).1,
             ((vecinosCSR g e.1).foldl (pasoVecinoBFS e.1 e.2) (vis, cola, res)).2.1,
             ((vecinosCSR g e.1).foldl (pasoVecinoBFS e.1 e.2) (vis, cola, res)).2.2)
            f).1 := by
      rw [hEvis, hvis1]
      exact Finset.subset_union_left
    ext x
    simp only [Finset.mem_union, Finset.mem_sdiff, List.mem_toFinset]
    constructor
    · rintro ((hx | ⟨hx1, hx2⟩) | ⟨hx1, hx2⟩)
      · exact Or.inl hx
      · refine Or.inr ⟨hE1sup ?_, hx2⟩
        exact Finset.mem_union_right _ (List.mem_toFinset.mpr hx1)
      · rw [hvis1] at hx2
        refine Or.inr ⟨hx1, fun hc => hx2 (Finset.mem_union_left _ hc)⟩
    · rintro (hx | ⟨hx1, hx2⟩)
      · exact Or.inl (Or.inl hx)
      · by_cases hxv : x ∈ (vecinosCSR g e.1).toFinset
        · exact Or.inl (Or.inr ⟨List.mem_toFinset.mp hxv, hx2⟩)
        · refine Or.inr ⟨hx1, ?_⟩
          rw [hvis1]
          intro hc
          rcases Finset.mem_union.mp hc with hc | hc
          · exact hx2 hc
          · exact hxv hc

theorem bfsLoop_alcanza (g : GrafoDisperso) (s : Nat) (d : Nat) :
    ∀ (k ℓ : Nat), ℓ + k = d →
      ∀ (f : List (Nat × Nat)) (vis : Finset Nat) (res : BFSResultado),
        (∀ p ∈ f, p.2 = ℓ) →
        (∀ x, x ∈ res.nodos ↔ x ∈ vis) →
        vis = alcanzaHasta g s ℓ →
        nodosLista f ⊆ vis →
        alcanzaHasta g s ℓ ∪ vecindario g (nodosLista f) = alcanzaHasta g s (ℓ + 1) →
        ∀ x, x ∈ (bfsLoop g d f vis res).2.nodos ↔ x ∈ alcanzaHasta g s d := by
  intro k
  induction k with
  | zero =>
    intro ℓ hℓd f vis res hlev hH1 hvis hfsub hN x
    rw [bfsLoop_drena g d f vis res (by
      intro p hp
      rw [hlev p hp]
      omega)]
    rw [hH1 x, hvis]
    have : ℓ = d := by omega
    rw [this]
  | succ k ih =>
    intro ℓ hℓd f vis res hlev hH1 hvis hfsub hN x
    have hℓlt : ℓ < d := by omega
    rw [show f = f ++ [] from (List.append_nil f).symm,
      bfsLoop_frente g d ℓ hℓlt f [] vis res hlev]
    have hE1 : (expandeFrente g (vis, [], res) f).1 = alcanzaHasta g s (ℓ + 1) := by
      rw [expandeFrente_vis, hvis, hN]
    have hnuevos : nodosLista (expandeFrente g (vis, [], res) f).2.1
        = alcanzaHasta g s (ℓ + 1) \ alcanzaHasta g s ℓ := by
      rw [expandeFrente_nuevos, hE1, ← hvis]
      simp [nodosLista]
    refine ih (ℓ + 1) (by omega) _ _ _ ?_ ?_ hE1 ?_ ?_ x
    · exact expandeFrente_niveles g ℓ f vis [] res hlev (by intro p hp; cases hp)
    · exact expandeFrente_nodos g f vis [] res hH1
    · rw [hnuevos, hE1]
      exact Finset.sdiff_subset
    · rw [hnuevos]
      ext y
      rw [show alcanzaHasta g s (ℓ + 1 + 1)
          = alcanzaHasta g s (ℓ + 1) ∪ vecindario g (alcanzaHasta g s (ℓ + 1)) from rfl]
      simp only [Finset.mem_union, vecindario, Finset.mem_biUnion, Finset.mem_sdiff,
        List.mem_toFinset]
      constructor
      · rintro (hy | ⟨u, ⟨hu1, -⟩, hyu⟩)
        · exact Or.inl hy
        · exact Or.inr ⟨u, hu1, hyu⟩
      · rintro (hy | ⟨u, hu, hyu⟩)
        · exact Or.inl hy
        · by_cases huℓ : u ∈ alcanzaHasta g s ℓ
          · refine Or.inl ?_
            rw [show alcanzaHasta g s (ℓ + 1)
                = alcanzaHasta g s ℓ ∪ vecindario g (alcanzaHasta g s ℓ) from rfl]
            apply Finset.mem_union_right
            rw [vecindario, Finset.mem_biUnion]
            exact ⟨u, huℓ, List.mem_toFinset.mpr hyu⟩
          · exact Or.inr ⟨u, ⟨hu, huℓ⟩, hyu⟩

/-- C1: for every successfully built graph, valid source `s` and depth
bound `d`, the visited-node list of `bfs(s, d)` contains a node `v` exactly
when the hop distance from `s` to `v` is at most `d`: soundness and
completeness of the bounded traversal. -/
theorem bfs_visita_alcanzables (g₀ : GrafoDisperso) (lineas : List (List Char)) (t : Nat)
    (g : GrafoDisperso) (hg : cargarDatos g₀ (some lineas) t = (true, g))
    (s : Nat) (hs : s < g.totalNodos) (d : Nat) (v : Nat) :
    v ∈ (bfsConDetalle g (s : Int) d).nodos ↔ ∃ n ≤ d, AlcanzableEn g s v n := by
  have hguard : ¬(g.totalNodos = 0 ∨ (s : Int) < 0 ∨ g.totalNodos ≤ (s : Int).toNat) := by
    push_neg
    refine ⟨by omega, by omega, by simpa using hs⟩
  rw [bfsConDetalle, if_neg hguard]
  have hsnat : ((s : Int)).toNat = s := by simp
  rw [hsnat]
  rw [bfsLoop_alcanza g s d d 0 (by omega) [(s, 0)] {s}
    { nodos := [s], aristas_origen := [], aristas_destino := [] }
    (by intro p hp; simp at hp; rw [hp])
    (by intro y; simp)
    (by rw [show alcanzaHasta g s 0 = {s} from rfl])
    (by
      intro y hy
      simp only [nodosLista, List.map_cons, List.map_nil, List.toFinset_cons,
        List.toFinset_nil, Finset.mem_insert] at hy
      rcases hy with hy | hy
      · simp [hy]
      · cases hy)
    (by
      have h0 : nodosLista [(s, 0)] = alcanzaHasta g s 0 := by
        simp [nodosLista, alcanzaHasta]
      rw [h0]
      rfl)
    v]
  exact alcanzaHasta_iff g s d v

theorem bfs_visita_alcanzables_testigo :
    cargarDatos GrafoDisperso.nuevo (some lineasEjemplo) 7 = (true, gEjemplo) ∧
      (0 < gEjemplo.totalNodos) ∧
      (2 ∈ (bfsConDetalle gEjemplo ((0 : Nat) : Int) 1).nodos
        ↔ ∃ n ≤ 1, AlcanzableEn gEjemplo 0 2 n) :=
  ⟨cargar_lineasEjemplo, by decide,
   bfs_visita_alcanzables GrafoDisperso.nuevo lineasEjemplo 7 gEjemplo
     cargar_lineasEjemplo 0 (by decide) 1 2⟩

/-! ## Claim C7: which lines are accepted as edges -/

/-- Word accumulator for `palabras`: splits a character list at whitespace
(specification-side vocabulary used to talk about the tokens of a line). -/
def palabrasAux (actual : List Char) : List Char → List (List Char)
  | [] => if actual = [] then [] else [actual.reverse]
  | c :: r =>
    if esEspacio c then
      if actual = [] then palabrasAux [] r else actual.reverse :: palabrasAux [] r
    else palabrasAux (c :: actual) r

/-- The whitespace-separated tokens of a line. -/
def palabras (l : List Char) : List (List Char) := palabrasAux [] l

/-- Base-10 value denoted by a list of digit characters. -/
def valorDigitos (w : List Char) : Nat :=
  w.foldl (fun n c => 10 * n + (c.toNat - 48)) 0

theorem digito_no_espacio (c : Char) (h : c.isDigit = true) : esEspacio c = false := by
  by_contra hq
  have hesp : esEspacio c = true := by
    cases hb : esEspacio c
    · exact absurd hb hq
    · rfl
  simp only [esEspacio, Bool.or_eq_true, beq_iff_eq] at hesp
  rcases hesp with ((((h1 | h1) | h1) | h1) | h1) | h1 <;>
    (subst h1; exact absurd h (by decide))

theorem digito_distinto (c : Char) (h : c.isDigit = true) (x : Char)
    (hx : x.isDigit = false) : c ≠ x := by
  intro he
  subst he
  rw [h] at hx
  exact absurd hx (by decide)

theorem leerDigitosAux_digitos (w : List Char) (hw : ∀ c ∈ w, c.isDigit = true)
    (r : List Char) (hr : ∀ c, r.head? = some c → c.isDigit = false) :
    ∀ acc, leerDigitosAux acc (w ++ r) =
      (w.foldl (fun n c => 10 * n + (c.toNat - 48)) acc, r) := by
  induction w with
  | nil =>
    intro acc
    cases r with
    | nil => simp [leerDigitosAux]
    | cons c rr =>
      have hc := hr c rfl
      simp [leerDigitosAux, hc]
  | cons c w' ih =>
    intro acc
    have hc : c.isDigit = true := hw c (List.mem_cons_self _ _)
    simp only [List.cons_append, leerDigitosAux, hc, if_true, List.foldl_cons]
    exact ih (fun x hx => hw x (List.mem_cons_of_mem _ hx)) _

theorem leerDigitos_digitos (w : List Char) (hw : w ≠ [])
    (hdig : ∀ c ∈ w, c.isDigit = true)
    (r : List Char) (hr : ∀ c, r.head? = some c → c.isDigit = false) :
    leerDigitos (w ++ r) = some (valorDigitos w, r) := by
  cases w with
  | nil => exact absurd rfl hw
  | cons c w' =>
    have hc : c.isDigit = true := hdig c (List.mem_cons_self _ _)
    simp only [List.cons_append, leerDigitos, hc, if_true]
    rw [leerDigitosAux_digitos w' (fun x hx => hdig x (List.mem_cons_of_mem _ hx)) r hr]
    have harith : 10 * 0 + (c.toNat - 48) = c.toNat - 48 := by omega
    simp [valorDigitos, List.foldl_cons, harith]

theorem dropWhile_todo_espacio (s : List Char) (hs : ∀ c ∈ s, esEspacio c = true) :
    ∀ l, (s ++ l).dropWhile esEspacio = l.dropWhile esEspacio := by
  induction s with
  | nil => intro l; rfl
  | cons c s' ih =>
    intro l
    have hc := hs c (List.mem_cons_self _ _)
    simp only [List.cons_append, List.dropWhile_cons, hc, if_true]
    exact ih (fun x hx => hs x (List.mem_cons_of_mem _ hx)) l

theorem leerEntero_digitos (s w r : List Char) (hs : ∀ c ∈ s, esEspacio c = true)
    (hw : w ≠ []) (hdig : ∀ c ∈ w, c.isDigit = true)
    (hr : ∀ c, r.head? = some c → c.isDigit = false) :
    leerEntero (s ++ w ++ r) = some ((valorDigitos w : Int), r) := by
  cases w with
  | nil => exact absurd rfl hw
  | cons c w' =>
    have hc : c.isDigit = true := hdig c (List.mem_cons_self _ _)
    have hdrop : (s ++ (c :: w') ++ r).dropWhile esEspacio = c :: (w' ++ r) := by
      rw [List.append_assoc, dropWhile_todo_espacio s hs]
      simp [List.dropWhile_cons, digito_no_espacio c hc]
    simp only [leerEntero, hdrop]
    rw [if_neg (digito_distinto c hc '-' (by decide)),
      if_neg (digito_distinto c hc '+' (by decide))]
    rw [show c :: (w' ++ r) = (c :: w') ++ r from rfl,
      leerDigitos_digitos (c :: w') hw hdig r hr]
    rfl

theorem leerDosEnteros_dos_tokens (w₁ w₂ : List Char) (h1 : w₁ ≠ []) (h2 : w₂ ≠ [])
    (hd1 : ∀ c ∈ w₁, c.isDigit = true) (hd2 : ∀ c ∈ w₂, c.isDigit = true) :
    leerDosEnteros (w₁ ++ ' ' :: w₂ ++ ['\n']) =
      some ((valorDigitos w₁ : Int), (valorDigitos w₂ : Int)) := by
  have e1 : leerEntero ([] ++ w₁ ++ ((' ' :: w₂) ++ ['\n'])) =
      some ((valorDigitos w₁ : Int), (' ' :: w₂) ++ ['\n']) :=
    leerEntero_digitos [] w₁ ((' ' :: w₂) ++ ['\n']) (by intro c hc; cases hc) h1 hd1
      (by
        intro c hc
        simp only [List.cons_append, List.head?_cons, Option.some.injEq] at hc
        subst hc
        decide)
  have e2 : leerEntero ([' '] ++ w₂ ++ ['\n']) = some ((valorDigitos w₂ : Int), ['\n']) :=
    leerEntero_digitos [' '] w₂ ['\n'] (by intro c hc; simp at hc; subst hc; decide)
      h2 hd2 (by
        intro c hc
        simp only [List.head?_cons, Option.some.injEq] at hc
        subst hc
        decide)
  simp only [List.nil_append] at e1
  simp only [List.singleton_append] at e2
  simp only [List.append_assoc]
  unfold leerDosEnteros
  rw [e1]
  dsimp only
  rw [e2]

/-- C7 amended: a line is skipped when its first character is the comment
marker or a newline, when the leading `sscanf` parse of two integers
fails, and when a parsed integer is negative; a line whose leading content
is two whitespace-separated digit tokens is accepted with the two denoted
values.  (As the counterexample shows, acceptance only constrains the
leading parse: content after the second integer is ignored, so the
"exactly two integers" reading of the claim is refuted.) -/
theorem procesar_linea_caracterizada :
    (procesarLinea [] = none) ∧
    (∀ r, procesarLinea ('#' :: r) = none) ∧
    (∀ r, procesarLinea ('\n' :: r) = none) ∧
    (∀ l, leerDosEnteros l = none → procesarLinea l = none) ∧
    (∀ l a b, leerDosEnteros l = some (a, b) → (a < 0 ∨ b < 0) → procesarLinea l = none) ∧
    (∀ w₁ w₂ : List Char, w₁ ≠ [] → w₂ ≠ [] →
      (∀ c ∈ w₁, c.isDigit = true) → (∀ c ∈ w₂, c.isDigit = true) →
      procesarLinea (w₁ ++ ' ' :: w₂ ++ ['\n']) =
        some (valorDigitos w₁, valorDigitos w₂)) := by
  refine ⟨rfl, ?_, ?_, ?_, ?_, ?_⟩
  · intro r
    simp [procesarLinea]
  · intro r
    simp [procesarLinea]
  · intro l hparse
    cases l with
    | nil => rfl
    | cons c r =>
      by_cases hcm : c = '#' ∨ c = '\n'
      · simp [procesarLinea, hcm]
      · simp [procesarLinea, hcm, hparse]
  · intro l a b hparse hneg
    cases l with
    | nil => rfl
    | cons c r =>
      by_cases hcm : c = '#' ∨ c = '\n'
      · simp [procesarLinea, hcm]
      · simp [procesarLinea, hcm, hparse, hneg]
  · intro w₁ w₂ h1 h2 hd1 hd2
    cases w₁ with
    | nil => exact absurd rfl h1
    | cons c w' =>
      have hc : c.isDigit = true := hd1 c (List.mem_cons_self _ _)
      have hparse := leerDosEnteros_dos_tokens (c :: w') w₂ h1 h2 hd1 hd2
      simp only [List.cons_append] at hparse ⊢
      simp only [procesarLinea, hparse]
      rw [if_neg (by
        rintro (hcm | hcm)
        · exact digito_distinto c hc '#' (by decide) hcm
        · exact digito_distinto c hc '\n' (by decide) hcm)]
      rw [if_neg (by
        rintro (hneg | hneg)
        · exact absurd hneg (by simp)
        · exact absurd hneg (by simp))]
      simp

theorem procesar_linea_caracterizada_testigo :
    (['4', '2'] : List Char) ≠ [] ∧
      procesarLinea ("42 7\n".data) = some (42, 7) :=
  ⟨by decide,
   by
    have h := procesar_linea_caracterizada.2.2.2.2.2 ['4', '2'] ['7']
      (by decide) (by decide) (by decide) (by decide)
    have hligne : ("42 7\n".data) = ['4', '2'] ++ ' ' :: ['7'] ++ ['\n'] := by decide
    rw [hligne, h]
    decide⟩

/-- C7 counterexample: the line `1 2 3` does not consist of exactly two
whitespace-separated integers (it tokenizes into three words), yet the
loader accepts it as the edge `(1, 2)`: `sscanf` stops after two
successful conversions and the rest of the line is ignored, so the claim
as stated is false. -/
theorem linea_tres_enteros_aceptada :
    palabras ("1 2 3\n".data) = [['1'], ['2'], ['3']] ∧
      procesarLinea ("1 2 3\n".data) = some (1, 2) := by
  decide

/-- C6 counterexample: the claim also says a negative `maxDepth` yields an
empty result.  The depth parameter is an unsigned `size_t`; a C++ caller
passing `-1` triggers the modular unsigned conversion, the traversal
receives 2^64 - 1, and on the one-edge graph both traversals starting at
node 0 visit both nodes instead of returning an empty result. -/
theorem profundidad_negativa_no_vacia :
    sizeTDeInt (-1) = 18446744073709551615 ∧
      (bfsConDetalle gUnaArista 0 (sizeTDeInt (-1))).nodos = [0, 1] ∧
      (dfsConDetalle gUnaArista 0 (sizeTDeInt (-1))).nodos = [0, 1] := by
  have hval : sizeTDeInt (-1) = 18446744073709551615 := by decide
  refine ⟨hval, ?_, ?_⟩
  · rw [hval]
    simp [bfsConDetalle, bfsLoop, pasoVecinoBFS, vecinosCSR, gUnaArista,
      -Prod.mk_zero_zero, -Prod.mk_one_one]
  · rw [hval]
    simp [dfsConDetalle, dfsLoop, apilarHijos, vecinosCSR, gUnaArista,
      -Prod.mk_zero_zero, -Prod.mk_one_one]

end neuronet
